import Mathlib

/-!
# Status-bar overlay: layout and rendering (`main.go`)

A shallow embedding of the layout and drawing code of `main.go`, in two readings.

* **Over the integers** (`readImgInfo`, `drawBox`, `draw`, `main`): Go's `int` is
  `Int` and the numbers handed to `gg` are the `int` expressions of the source.
  Go's `/` on `int` truncates toward zero and panics on a zero divisor, so it is
  `Int.tdiv` guarded by a fault (`intDiv`).
* **On 64-bit integers** (`readImgInfo64`, `drawBox64`, `draw64`, `main64`): the
  same program where every `+`, `-` and `*` keeps the low 64 bits (`wrap64`) and
  every `float64(...)` rounds to 53 significant bits (`float64`).  The two readings
  give the same cell rectangle whenever the quantities of the cell are modest
  (`cellRect64_of_modest`); statements about section offsets, which can wrap, are
  made on this reading.
* Slices are lists; an index outside the slice is the Go runtime panic
  `Fault.indexOutOfRange`.
* The drawing surface `*gg.Context` is modelled by its size and the sequence of
  drawing primitives issued on it (`Context.ops`, oldest first).
* Collaborators outside the program (the XML decoder, the JPEG decoder, the
  font loader) are parameters: the decoded `Bar`, the decoded `Image`, and a
  predicate `fonts` telling whether `LoadFontFace` succeeds.
-/

set_option autoImplicit false

namespace BarOverlay

/-! ## Data model (`main.go`, lines 13–66) -/

/-- Constant `fontFolder`. -/
def fontFolder : String := "font/"

/-- Struct `Label`. -/
structure Label where
  Text : String
  Align : String
deriving DecidableEq, Repr

/-- Struct `Panel`. -/
structure Panel where
  Color : String
  BorderWidth : Int
  BorderColor : String
  Labels : List Label
  Values : List Label
deriving DecidableEq, Repr

/-- Struct `Font`. -/
structure Font where
  Name : String
  Color : String
  Size : Int
deriving DecidableEq, Repr

/-- Struct `Section`. -/
structure Section where
  Height : Int
  Font : Font
  Panels : List Panel
deriving DecidableEq, Repr

/-- Struct `Bar`. -/
structure Bar where
  Position : String
  Color : String
  Height : Int
  Sections : List Section
deriving DecidableEq, Repr

/-- A decoded source image.  Its bounds rectangle is well formed, so
`Bounds().Dx()` and `Bounds().Dy()` are the non-negative numbers `Dx`, `Dy`. -/
structure Image where
  Dx : Nat
  Dy : Nat
deriving DecidableEq, Repr

/-- The package-level variables of `main.go` (lines 20–28). -/
structure State where
  imgWidth : Int
  imgHeight : Int
  totalHeight : Int
  bar : Bar
  imageObject : Image
  barXPosition : Int
  barYPosition : Int
deriving DecidableEq, Repr

/-- Ways in which a run stops without completing. -/
inductive Fault where
  /-- Go runtime panic: index out of range. -/
  | indexOutOfRange
  /-- Go runtime panic: integer divide by zero. -/
  | divideByZero
  /-- The call `log.Fatalf("Failed to load font: ...")`. -/
  | fontLoadFailed
  /-- The panic of `image.NewRGBA` on a rectangle whose byte count does not fit an `int`. -/
  | hugeSurface
deriving DecidableEq, Repr

/-- A fractional constant of the source, such as `0.5`, as a numerator over a
denominator. -/
structure Frac where
  num : Int
  den : Nat
deriving DecidableEq, Repr

/-- The constant `0.5`. -/
def half : Frac := { num := 1, den := 2 }

/-- The drawing primitives of `gg.Context` that the program calls.  A number that
the source converts with `float64(...)` is recorded as an integer: the `int`
itself in the reading over the integers, its `float64` value in the 64-bit
reading.  `DrawImage` carries the image that is drawn. -/
inductive Cmd where
  | SetHexColor (color : String)
  | Clear
  | DrawRectangle (x y w h : Int)
  | Fill
  | LoadFontFace (path : String) (points : Int)
  | DrawStringAnchored (s : String) (x y : Int) (ax : Int) (ay : Frac)
  | SetLineWidth (lineWidth : Int)
  | Stroke
  | DrawImage (im : Image) (x y : Int)
deriving DecidableEq, Repr

/-- A drawing surface: its size as given to `gg.NewContext`, and the primitives
issued on it so far, oldest first. -/
structure Context where
  width : Int
  height : Int
  ops : List Cmd
deriving DecidableEq, Repr

deriving instance DecidableEq for Except

/-- The call `gg.NewContext(width, height)`.  The surface is
`image.NewRGBA(image.Rect(0, 0, width, height))` and its size is read back from the
bounds of that image; `image.Rect` swaps the corners of a rectangle given with a
negative extent, so the surface is `|width|` by `|height|`.  (With a negative
extent the pixels of the surface lie at negative coordinates, and nothing drawn at
a coordinate from 0 on lands on it.) -/
def NewContext (width height : Int) : Context :=
  { width := width.natAbs, height := height.natAbs, ops := [] }

/-- Issue one primitive on the surface. -/
def Context.emit (dc : Context) (c : Cmd) : Context :=
  { dc with ops := dc.ops ++ [c] }

/-! ## Go primitives -/

/-- Go's `a / b` on `int`: panics when `b = 0`, truncates toward zero otherwise. -/
def intDiv (a b : Int) : Except Fault Int :=
  if b = 0 then .error .divideByZero else .ok (a.tdiv b)

/-- Go's `xs[i]` on a slice: panics when `i` is not below `len(xs)`. -/
def index {α : Type} (xs : List α) (i : Nat) : Except Fault α :=
  match xs[i]? with
  | some x => .ok x
  | none => .error .indexOutOfRange

/-- The loop `for i := 0; i < n; i++ { body }` threading a state. -/
def forLoop {σ : Type} (n : Nat) (body : Nat → σ → Except Fault σ) (init : σ) :
    Except Fault σ :=
  (List.range n).foldlM (fun acc i => body i acc) init

/-! ## The program -/

/-- Function `readImgInfo` (lines 83–105), after the image has been decoded, read
over the integers. -/
def readImgInfo (st : State) (img : Image) : State :=
  { st with
    imageObject := img
    imgWidth := img.Dx
    imgHeight := img.Dy
    totalHeight := (img.Dy : Int) + st.bar.Height
    barXPosition := 0
    barYPosition := img.Dy }

/-- Function `drawBox` (lines 107–194), read over the integers; `drawBox64` is the
same function on 64-bit integers. -/
def drawBox (fonts : String → Int → Bool) (st : State) (dc : Context)
    (sectionIndex panelIndex labelIndex : Nat) : Except Fault Context := do
  -- lines 109–112
  let mut yPosition : Int := 0
  yPosition ← forLoop sectionIndex
    (fun i y => do
      let sec ← index st.bar.Sections i
      pure (y + sec.Height))
    yPosition
  -- lines 113–115
  let sec ← index st.bar.Sections sectionIndex
  let pan ← index sec.Panels panelIndex
  let rowStep ← intDiv sec.Height pan.Labels.length
  yPosition := yPosition + rowStep * labelIndex
  -- lines 117–118
  let colStep ← intDiv st.imgWidth sec.Panels.length
  let xPosition := colStep * panelIndex
  -- lines 120–122
  let width ← intDiv st.imgWidth sec.Panels.length
  let height ← intDiv sec.Height pan.Labels.length
  -- lines 125–128
  let mut labelXPos : Int := 0
  let mut valueXPos : Int := 0
  let mut labelAlign : Int := 0
  let mut valueAlign : Int := 0
  -- lines 129–135
  let lab ← index pan.Labels labelIndex
  if lab.Align = "L" then
    labelXPos := 15
    labelAlign := 0
  else if lab.Align = "R" then
    labelXPos := width.tdiv 2
    labelAlign := 1
  -- lines 136–144
  if pan.Values.length > labelIndex then
    let val ← index pan.Values labelIndex
    if val.Align = "L" then
      valueXPos := width.tdiv 2 + 15
      valueAlign := 0
    else if val.Align = "R" then
      valueXPos := width - 15
      valueAlign := 1
  -- lines 146–154
  let mut dc := dc.emit (.SetHexColor pan.Color)
  dc := dc.emit
    (.DrawRectangle (st.barXPosition + xPosition) (st.barYPosition + yPosition) width height)
  dc := dc.emit .Fill
  -- lines 156–162
  dc := dc.emit (.LoadFontFace (fontFolder ++ sec.Font.Name) sec.Font.Size)
  if !fonts (fontFolder ++ sec.Font.Name) sec.Font.Size then
    throw Fault.fontLoadFailed
  -- lines 164–171
  dc := dc.emit (.SetHexColor sec.Font.Color)
  dc := dc.emit
    (.DrawStringAnchored (lab.Text ++ ":")
      (st.barXPosition + xPosition + labelXPos)
      (st.barYPosition + yPosition + height.tdiv 2) labelAlign half)
  -- lines 173–181
  if pan.Values.length > labelIndex then
    let val ← index pan.Values labelIndex
    dc := dc.emit
      (.DrawStringAnchored val.Text
        (st.barXPosition + xPosition + valueXPos)
        (st.barYPosition + yPosition + height.tdiv 2) valueAlign half)
  -- lines 183–192
  dc := dc.emit (.SetHexColor pan.BorderColor)
  dc := dc.emit (.SetLineWidth pan.BorderWidth)
  dc := dc.emit
    (.DrawRectangle (st.barXPosition + xPosition) (st.barYPosition + yPosition) width height)
  dc := dc.emit .Stroke
  return dc

/-- Function `draw` (lines 196–211), read over the integers. -/
def draw (fonts : String → Int → Bool) (st : State) (dc : Context) :
    Except Fault Context := do
  let dc := dc.emit (.SetHexColor st.bar.Color)
  let dc := dc.emit .Clear
  forLoop st.bar.Sections.length
    (fun i dc => do
      let sec ← index st.bar.Sections i
      forLoop sec.Panels.length
        (fun j dc => do
          let pan ← index sec.Panels j
          forLoop pan.Labels.length (fun k dc => drawBox fonts st dc i j k) dc)
        dc)
    dc

/-- The package-level variables before `main` runs, with the decoded
configuration stored in `bar` (line 226). -/
def loaded (cfg : Bar) : State :=
  { imgWidth := 0, imgHeight := 0, totalHeight := 0, bar := cfg,
    imageObject := { Dx := 0, Dy := 0 }, barXPosition := 0, barYPosition := 0 }

/-- Function `main` (lines 225–241), read over the integers, from the decoded
configuration and the decoded image to the surface handed to the encoder. -/
def main (fonts : String → Int → Bool) (cfg : Bar) (img : Image) :
    Except Fault Context := do
  let st := readImgInfo (loaded cfg) img
  let dc := NewContext st.imgWidth st.totalHeight
  let dc ← draw fonts st dc
  pure (dc.emit (.DrawImage st.imageObject 0 0))

/-! ## The program on Go's 64-bit integers

The definitions above read the arithmetic of the source over the integers.  The
definitions of this section are the same program on Go's `int`: every `+`, `-`
and `*` keeps the low 64 bits of its result (`wrap64`), and a number handed to
`gg` through `float64(...)` is the `float64` nearest to it (`float64`). -/

/-- Go's `int` keeps the low 64 bits of a result, read as a signed number. -/
def wrap64 (n : Int) : Int := (n + 2 ^ 63) % 2 ^ 64 - 2 ^ 63

/-- The number of low bits a magnitude between `2 ^ 53` and `2 ^ 64` loses when it
is stored with the 53 significant bits of a `float64`. -/
def droppedBits (m : Nat) : Nat :=
  ((List.range 11).find? fun k => decide (m < 2 ^ (54 + k))).getD 10 + 1

/-- The value of `float64(n)` for an `int` `n`: `n` itself up to magnitude `2 ^ 53`,
beyond that the nearest number with 53 significant bits, a tie going to the even
one. -/
def float64 (n : Int) : Int :=
  if n.natAbs ≤ 2 ^ 53 then n
  else
    let k := droppedBits n.natAbs
    let q := n.natAbs / 2 ^ k
    let rest := n.natAbs % 2 ^ k
    let q2 := if 2 ^ (k - 1) < rest ∨ (rest = 2 ^ (k - 1) ∧ q % 2 = 1) then q + 1 else q
    Int.sign n * ((q2 * 2 ^ k : Nat) : Int)

/-- Function `readImgInfo` (lines 83–105) on 64-bit integers. -/
def readImgInfo64 (st : State) (img : Image) : State :=
  { st with
    imageObject := img
    imgWidth := img.Dx
    imgHeight := img.Dy
    totalHeight := wrap64 ((img.Dy : Int) + st.bar.Height)
    barXPosition := 0
    barYPosition := img.Dy }

/-- Function `drawBox` (lines 107–194) on 64-bit integers. -/
def drawBox64 (fonts : String → Int → Bool) (st : State) (dc : Context)
    (sectionIndex panelIndex labelIndex : Nat) : Except Fault Context := do
  -- lines 109–112
  let mut yPosition : Int := 0
  yPosition ← forLoop sectionIndex
    (fun i y => do
      let sec ← index st.bar.Sections i
      pure (wrap64 (y + sec.Height)))
    yPosition
  -- lines 113–115
  let sec ← index st.bar.Sections sectionIndex
  let pan ← index sec.Panels panelIndex
  let rowStep ← intDiv sec.Height pan.Labels.length
  yPosition := wrap64 (yPosition + wrap64 (rowStep * labelIndex))
  -- lines 117–118
  let colStep ← intDiv st.imgWidth sec.Panels.length
  let xPosition := wrap64 (colStep * panelIndex)
  -- lines 120–122
  let width ← intDiv st.imgWidth sec.Panels.length
  let height ← intDiv sec.Height pan.Labels.length
  -- lines 125–128
  let mut labelXPos : Int := 0
  let mut valueXPos : Int := 0
  let mut labelAlign : Int := 0
  let mut valueAlign : Int := 0
  -- lines 129–135
  let lab ← index pan.Labels labelIndex
  if lab.Align = "L" then
    labelXPos := 15
    labelAlign := 0
  else if lab.Align = "R" then
    labelXPos := width.tdiv 2
    labelAlign := 1
  -- lines 136–144
  if pan.Values.length > labelIndex then
    let val ← index pan.Values labelIndex
    if val.Align = "L" then
      valueXPos := wrap64 (width.tdiv 2 + 15)
      valueAlign := 0
    else if val.Align = "R" then
      valueXPos := wrap64 (width - 15)
      valueAlign := 1
  -- lines 146–154
  let mut dc := dc.emit (.SetHexColor pan.Color)
  dc := dc.emit
    (.DrawRectangle (float64 (wrap64 (st.barXPosition + xPosition)))
      (float64 (wrap64 (st.barYPosition + yPosition))) (float64 width) (float64 height))
  dc := dc.emit .Fill
  -- lines 156–162
  dc := dc.emit (.LoadFontFace (fontFolder ++ sec.Font.Name) (float64 sec.Font.Size))
  if !fonts (fontFolder ++ sec.Font.Name) (float64 sec.Font.Size) then
    throw Fault.fontLoadFailed
  -- lines 164–171
  dc := dc.emit (.SetHexColor sec.Font.Color)
  dc := dc.emit
    (.DrawStringAnchored (lab.Text ++ ":")
      (float64 (wrap64 (wrap64 (st.barXPosition + xPosition) + labelXPos)))
      (float64 (wrap64 (wrap64 (st.barYPosition + yPosition) + height.tdiv 2)))
      (float64 labelAlign) half)
  -- lines 173–181
  if pan.Values.length > labelIndex then
    let val ← index pan.Values labelIndex
    dc := dc.emit
      (.DrawStringAnchored val.Text
        (float64 (wrap64 (wrap64 (st.barXPosition + xPosition) + valueXPos)))
        (float64 (wrap64 (wrap64 (st.barYPosition + yPosition) + height.tdiv 2)))
        (float64 valueAlign) half)
  -- lines 183–192
  dc := dc.emit (.SetHexColor pan.BorderColor)
  dc := dc.emit (.SetLineWidth (float64 pan.BorderWidth))
  dc := dc.emit
    (.DrawRectangle (float64 (wrap64 (st.barXPosition + xPosition)))
      (float64 (wrap64 (st.barYPosition + yPosition))) (float64 width) (float64 height))
  dc := dc.emit .Stroke
  return dc

/-- Function `draw` (lines 196–211) on 64-bit integers. -/
def draw64 (fonts : String → Int → Bool) (st : State) (dc : Context) :
    Except Fault Context := do
  let dc := dc.emit (.SetHexColor st.bar.Color)
  let dc := dc.emit .Clear
  forLoop st.bar.Sections.length
    (fun i dc => do
      let sec ← index st.bar.Sections i
      forLoop sec.Panels.length
        (fun j dc => do
          let pan ← index sec.Panels j
          forLoop pan.Labels.length (fun k dc => drawBox64 fonts st dc i j k) dc)
        dc)
    dc

/-- The dimension check of `image.NewRGBA` on `image.Rect(0, 0, width, height)`:
it panics when an extent or four bytes per pixel times both extents does not fit
an `int`. -/
def hugeSurface (width height : Int) : Bool :=
  decide (2 ^ 62 ≤ width.natAbs) || decide (2 ^ 63 ≤ height.natAbs)
    || decide (2 ^ 63 ≤ 4 * width.natAbs * height.natAbs)

/-- Function `main` (lines 225–241) on 64-bit integers, from the decoded
configuration and the decoded image to the surface handed to the encoder.  The
pixel buffer of a surface that passes the dimension check is taken to be
allocated. -/
def main64 (fonts : String → Int → Bool) (cfg : Bar) (img : Image) :
    Except Fault Context := do
  let st := readImgInfo64 (loaded cfg) img
  if hugeSurface st.imgWidth st.totalHeight then
    throw Fault.hugeSurface
  let dc := NewContext st.imgWidth st.totalHeight
  let dc ← draw64 fonts st dc
  pure (dc.emit (.DrawImage st.imageObject 0 0))

/-! ## Reading a surface -/

/-- A rectangle in canvas pixels. -/
structure Rect where
  x : Int
  y : Int
  width : Int
  height : Int
deriving DecidableEq, Repr

/-- The pixel `(a, b)` lies in the half-open ranges `[x, x+width) × [y, y+height)`. -/
def Rect.covers (R : Rect) (a b : Int) : Prop :=
  R.x ≤ a ∧ a < R.x + R.width ∧ R.y ≤ b ∧ b < R.y + R.height

/-- One anchored string: the arguments of a call of `DrawStringAnchored`. -/
structure TextDraw where
  s : String
  x : Int
  y : Int
  ax : Int
  ay : Frac
deriving DecidableEq, Repr

/-- The rectangles given to `DrawRectangle`, in the order of the calls. -/
def rectangles : List Cmd → List Rect
  | [] => []
  | .DrawRectangle x y w h :: rest => { x := x, y := y, width := w, height := h } :: rectangles rest
  | _ :: rest => rectangles rest

/-- The strings given to `DrawStringAnchored`, in the order of the calls. -/
def texts : List Cmd → List TextDraw
  | [] => []
  | .DrawStringAnchored s x y ax ay :: rest =>
    { s := s, x := x, y := y, ax := ax, ay := ay } :: texts rest
  | _ :: rest => texts rest

/-- The rectangles that are filled: those given to `DrawRectangle` right before a
call of `Fill`, in the order of the calls. -/
def fills : List Cmd → List Rect
  | .DrawRectangle x y w h :: .Fill :: rest =>
    { x := x, y := y, width := w, height := h } :: fills rest
  | _ :: rest => fills rest
  | [] => []

/-- What a run left on its surface; nothing when it stopped on a fault. -/
def issued : Except Fault Context → List Cmd
  | .ok dc => dc.ops
  | .error _ => []

/-- A font loader that finds every font. -/
def everyFont : String → Int → Bool := fun _ _ => true

/-! ## Closed forms -/

/-- Bar-local top edge of section `s`: the heights of the sections before it, added up. -/
def sectionY (bar : Bar) (s : Nat) : Int :=
  ((bar.Sections.take s).map (fun sec => sec.Height)).sum

/-- Horizontal offset and anchor chosen for a label (lines 125–135). -/
def labelPlacement (width : Int) (lab : Label) : Int × Int :=
  if lab.Align = "L" then (15, 0)
  else if lab.Align = "R" then (width.tdiv 2, 1)
  else (0, 0)

/-- Horizontal offset and anchor chosen for a value (lines 126–144). -/
def valuePlacement (width : Int) (val : Label) : Int × Int :=
  if val.Align = "L" then (width.tdiv 2 + 15, 0)
  else if val.Align = "R" then (width - 15, 1)
  else (0, 0)

/-- The rectangle of the cell `(s, p, r)` as lines 109–122 and 148–153 compute it. -/
def cellRect (st : State) (sec : Section) (pan : Panel) (s p r : Nat) : Rect :=
  { x := st.barXPosition + st.imgWidth.tdiv sec.Panels.length * p
    y := st.barYPosition + (sectionY st.bar s + sec.Height.tdiv pan.Labels.length * r)
    width := st.imgWidth.tdiv sec.Panels.length
    height := sec.Height.tdiv pan.Labels.length }

/-- The label string of the cell `(s, p, r)` as lines 165–171 draw it. -/
def labelDraw (st : State) (sec : Section) (pan : Panel) (lab : Label) (s p r : Nat) :
    TextDraw :=
  { s := lab.Text ++ ":"
    x := (cellRect st sec pan s p r).x
          + (labelPlacement (cellRect st sec pan s p r).width lab).1
    y := (cellRect st sec pan s p r).y + (cellRect st sec pan s p r).height.tdiv 2
    ax := (labelPlacement (cellRect st sec pan s p r).width lab).2
    ay := half }

/-- The value string of the cell `(s, p, r)` as lines 174–180 draw it. -/
def valueDraw (st : State) (sec : Section) (pan : Panel) (val : Label) (s p r : Nat) :
    TextDraw :=
  { s := val.Text
    x := (cellRect st sec pan s p r).x
          + (valuePlacement (cellRect st sec pan s p r).width val).1
    y := (cellRect st sec pan s p r).y + (cellRect st sec pan s p r).height.tdiv 2
    ax := (valuePlacement (cellRect st sec pan s p r).width val).2
    ay := half }

/-- The primitives `drawBox` issues for the cell `(s, p, r)` when its indices are
in range and the font loads: fill, font selection, label text, value text if
present, border stroke. -/
def cellOps (st : State) (sec : Section) (pan : Panel) (lab : Label) (s p r : Nat) : List Cmd :=
  let x := st.barXPosition + st.imgWidth.tdiv sec.Panels.length * p
  let y := st.barYPosition + (sectionY st.bar s + sec.Height.tdiv pan.Labels.length * r)
  let w := st.imgWidth.tdiv sec.Panels.length
  let h := sec.Height.tdiv pan.Labels.length
  [ .SetHexColor pan.Color, .DrawRectangle x y w h, .Fill,
    .LoadFontFace (fontFolder ++ sec.Font.Name) sec.Font.Size,
    .SetHexColor sec.Font.Color,
    .DrawStringAnchored (lab.Text ++ ":") (x + (labelPlacement w lab).1) (y + h.tdiv 2)
      (labelPlacement w lab).2 half ]
  ++ (match pan.Values[r]? with
      | some val =>
        [ .DrawStringAnchored val.Text (x + (valuePlacement w val).1) (y + h.tdiv 2)
            (valuePlacement w val).2 half ]
      | none => [])
  ++ [ .SetHexColor pan.BorderColor, .SetLineWidth pan.BorderWidth, .DrawRectangle x y w h,
       .Stroke ]

/-- The primitives of all cells of the bar: sections in order, within a section
its panels in order, within a panel its label rows in order. -/
def barOps (st : State) : List Cmd :=
  st.bar.Sections.enum.flatMap fun (s, sec) =>
    sec.Panels.enum.flatMap fun (p, pan) =>
      pan.Labels.enum.flatMap fun (r, lab) => cellOps st sec pan lab s p r

/-- The primitives of the cells of section `s`: its panels in order, within a panel
its label rows in order. -/
def sectionOps (st : State) (s : Nat) (sec : Section) : List Cmd :=
  sec.Panels.enum.flatMap fun (p, pan) =>
    pan.Labels.enum.flatMap fun (r, lab) => cellOps st sec pan lab s p r

/-- A run that, if it stops, stops only because a font does not load. -/
def FontOnly {σ : Type} (e : Except Fault σ) : Prop :=
  ∀ f, e = .error f → f = Fault.fontLoadFailed

/-- Every section of the bar names a font that loads. -/
def FontsLoad (fonts : String → Int → Bool) (bar : Bar) : Prop :=
  ∀ sec ∈ bar.Sections, fonts (fontFolder ++ sec.Font.Name) sec.Font.Size = true

/-- The section offset after the loop of lines 109–112 on 64-bit integers. -/
def sectionY64 (bar : Bar) (s : Nat) : Int := wrap64 (sectionY bar s)

/-- The rectangle of the cell `(s, p, r)` as `gg` receives it from `drawBox64`. -/
def cellRect64 (st : State) (sec : Section) (pan : Panel) (s p r : Nat) : Rect :=
  { x := float64 (wrap64 (st.barXPosition + wrap64 (st.imgWidth.tdiv sec.Panels.length * p)))
    y := float64 (wrap64 (st.barYPosition
          + wrap64 (sectionY64 st.bar s + wrap64 (sec.Height.tdiv pan.Labels.length * r))))
    width := float64 (st.imgWidth.tdiv sec.Panels.length)
    height := float64 (sec.Height.tdiv pan.Labels.length) }

/-- Horizontal offset and anchor chosen for a value on 64-bit integers. -/
def valuePlacement64 (width : Int) (val : Label) : Int × Int :=
  if val.Align = "L" then (wrap64 (width.tdiv 2 + 15), 0)
  else if val.Align = "R" then (wrap64 (width - 15), 1)
  else (0, 0)

/-- The primitives `drawBox64` issues for the cell `(s, p, r)` when its indices are
in range and the font loads. -/
def cellOps64 (st : State) (sec : Section) (pan : Panel) (lab : Label) (s p r : Nat) :
    List Cmd :=
  let x := wrap64 (st.barXPosition + wrap64 (st.imgWidth.tdiv sec.Panels.length * p))
  let y := wrap64 (st.barYPosition
    + wrap64 (sectionY64 st.bar s + wrap64 (sec.Height.tdiv pan.Labels.length * r)))
  let w := st.imgWidth.tdiv sec.Panels.length
  let h := sec.Height.tdiv pan.Labels.length
  [ .SetHexColor pan.Color, .DrawRectangle (float64 x) (float64 y) (float64 w) (float64 h),
    .Fill,
    .LoadFontFace (fontFolder ++ sec.Font.Name) (float64 sec.Font.Size),
    .SetHexColor sec.Font.Color,
    .DrawStringAnchored (lab.Text ++ ":") (float64 (wrap64 (x + (labelPlacement w lab).1)))
      (float64 (wrap64 (y + h.tdiv 2))) (float64 (labelPlacement w lab).2) half ]
  ++ (match pan.Values[r]? with
      | some val =>
        [ .DrawStringAnchored val.Text (float64 (wrap64 (x + (valuePlacement64 w val).1)))
            (float64 (wrap64 (y + h.tdiv 2))) (float64 (valuePlacement64 w val).2) half ]
      | none => [])
  ++ [ .SetHexColor pan.BorderColor, .SetLineWidth (float64 pan.BorderWidth),
       .DrawRectangle (float64 x) (float64 y) (float64 w) (float64 h), .Stroke ]

/-- The primitives of all cells of the bar on 64-bit integers, in section, panel,
row order. -/
def barOps64 (st : State) : List Cmd :=
  st.bar.Sections.enum.flatMap fun (s, sec) =>
    sec.Panels.enum.flatMap fun (p, pan) =>
      pan.Labels.enum.flatMap fun (r, lab) => cellOps64 st sec pan lab s p r

/-- The quantities that enter the cells of section `s` are at most `2 ^ 50` in
magnitude: the image width, the position of the bar, the height of the section and
the sum of the heights before it.  Then no sum or product of such a cell leaves
the range in which Go's `int` and `float64` are exact. -/
def Modest (st : State) (s : Nat) (sec : Section) : Prop :=
  (0 ≤ st.imgWidth ∧ st.imgWidth ≤ 2 ^ 50)
  ∧ (-2 ^ 50 ≤ st.barXPosition ∧ st.barXPosition ≤ 2 ^ 50)
  ∧ (-2 ^ 50 ≤ st.barYPosition ∧ st.barYPosition ≤ 2 ^ 50)
  ∧ (-2 ^ 50 ≤ sec.Height ∧ sec.Height ≤ 2 ^ 50)
  ∧ (-2 ^ 50 ≤ sectionY st.bar s ∧ sectionY st.bar s ≤ 2 ^ 50)

instance (st : State) (s : Nat) (sec : Section) : Decidable (Modest st s sec) := by
  unfold Modest
  infer_instance

instance (R : Rect) (a b : Int) : Decidable (R.covers a b) := by
  unfold Rect.covers
  infer_instance

/-- On 64-bit integers: every section of the bar names a font that loads at the
size handed to `LoadFontFace`. -/
def FontsLoad64 (fonts : String → Int → Bool) (bar : Bar) : Prop :=
  ∀ sec ∈ bar.Sections, fonts (fontFolder ++ sec.Font.Name) (float64 sec.Font.Size) = true

/-! ## The layout rules as the specification words them -/

/-- The cell rectangle of the layout rules, every division a floor division:
panel x, section y plus row y, panel width, row height, shifted down by the
image height. -/
def floorCell (imgWidth imgHeight : Int) (bar : Bar) (sec : Section) (pan : Panel)
    (s p r : Nat) : Rect :=
  { x := Int.fdiv imgWidth sec.Panels.length * p
    y := imgHeight + sectionY bar s + Int.fdiv sec.Height pan.Labels.length * r
    width := Int.fdiv imgWidth sec.Panels.length
    height := Int.fdiv sec.Height pan.Labels.length }

/-- Renderer, step 1: fill the cell rectangle with the colour of the panel. -/
def fillStep (color : String) (cell : Rect) : List Cmd :=
  [.SetHexColor color, .DrawRectangle cell.x cell.y cell.width cell.height, .Fill]

/-- Renderer, step 2: select the font of the section and its colour. -/
def fontStep (font : Font) : List Cmd :=
  [.LoadFontFace (fontFolder ++ font.Name) font.Size, .SetHexColor font.Color]

/-- Renderer, steps 3 and 4: draw one anchored string. -/
def textStep (t : TextDraw) : List Cmd :=
  [.DrawStringAnchored t.s t.x t.y t.ax t.ay]

/-- Renderer, step 5: stroke the border of the cell rectangle. -/
def strokeStep (color : String) (lineWidth : Int) (cell : Rect) : List Cmd :=
  [ .SetHexColor color, .SetLineWidth lineWidth,
    .DrawRectangle cell.x cell.y cell.width cell.height, .Stroke ]

/-- Renderer, one cell: fill, font, label text, value text if the row has a
value, border stroke. -/
def specCell (st : State) (s : Nat) (sec : Section) (p : Nat) (pan : Panel) (r : Nat)
    (lab : Label) : List Cmd :=
  fillStep pan.Color (cellRect st sec pan s p r)
  ++ fontStep sec.Font
  ++ textStep (labelDraw st sec pan lab s p r)
  ++ (match pan.Values[r]? with
      | some val => textStep (valueDraw st sec pan val s p r)
      | none => [])
  ++ strokeStep pan.BorderColor pan.BorderWidth (cellRect st sec pan s p r)

/-- Renderer, whole bar: clear the surface to the colour of the bar, then one
cell per label in section-then-panel-then-row order. -/
def specDraw (st : State) : List Cmd :=
  [.SetHexColor st.bar.Color, .Clear]
  ++ st.bar.Sections.enum.flatMap fun (s, sec) =>
      sec.Panels.enum.flatMap fun (p, pan) =>
        pan.Labels.enum.flatMap fun (r, lab) => specCell st s sec p pan r lab

/-! ## Concrete inputs -/

/-- A font descriptor used by the sample bars. -/
def plainFont : Font := { Name := "a.ttf", Color := "#ffffff", Size := 12 }

/-- One panel with the rows "Speed" (left) and "Altitude" (right), each with a value. -/
def demoPanel : Panel :=
  { Color := "#101010", BorderWidth := 1, BorderColor := "#202020",
    Labels := [⟨"Speed", "L"⟩, ⟨"Altitude", "R"⟩],
    Values := [⟨"120", "L"⟩, ⟨"3000", "R"⟩] }

/-- One section of height 100 holding `demoPanel`. -/
def demoSection : Section := { Height := 100, Font := plainFont, Panels := [demoPanel] }

/-- A bar of height 100 with the single section `demoSection`. -/
def demoBar : Bar :=
  { Position := "bottom", Color := "#000000", Height := 100, Sections := [demoSection] }

/-- A 640 by 480 image. -/
def demoImage : Image := { Dx := 640, Dy := 480 }

/-- A panel with three labels and a single value. -/
def sparsePanel : Panel :=
  { Color := "#101010", BorderWidth := 1, BorderColor := "#202020",
    Labels := [⟨"Speed", "L"⟩, ⟨"Altitude", "R"⟩, ⟨"Heading", "L"⟩],
    Values := [⟨"120", "L"⟩] }

/-- A section of height 90 holding `sparsePanel`. -/
def sparseSection : Section := { Height := 90, Font := plainFont, Panels := [sparsePanel] }

/-- A bar with the single section `sparseSection`. -/
def sparseBar : Bar :=
  { Position := "bottom", Color := "#000000", Height := 90, Sections := [sparseSection] }

/-- A section of height 100 with three panels side by side. -/
def thirdsSection : Section :=
  { Height := 100, Font := plainFont, Panels := [demoPanel, sparsePanel, demoPanel] }

/-- A bar with the single section `thirdsSection`. -/
def thirdsBar : Bar :=
  { Position := "bottom", Color := "#000000", Height := 100, Sections := [thirdsSection] }

/-- A section of height 100 holding the three-row panel `sparsePanel`. -/
def tallSection : Section := { Height := 100, Font := plainFont, Panels := [sparsePanel] }

/-- A bar with the single section `tallSection`. -/
def tallBar : Bar :=
  { Position := "bottom", Color := "#000000", Height := 100, Sections := [tallSection] }

/-- A section without panels. -/
def hollowSection : Section := { Height := 100, Font := plainFont, Panels := [] }

/-- A bar whose only section has no panels. -/
def hollowBar : Bar :=
  { Position := "bottom", Color := "#000000", Height := 100, Sections := [hollowSection] }

/-- A panel without labels. -/
def blankPanel : Panel :=
  { Color := "#101010", BorderWidth := 1, BorderColor := "#202020", Labels := [], Values := [] }

/-- A section whose only panel has no labels. -/
def blankSection : Section := { Height := 100, Font := plainFont, Panels := [blankPanel] }

/-- A bar whose only panel has no labels. -/
def blankBar : Bar :=
  { Position := "bottom", Color := "#000000", Height := 100, Sections := [blankSection] }

/-- A bar of height 200 with two sections, one panel above three panels. -/
def stackedBar : Bar :=
  { Position := "bottom", Color := "#000000", Height := 200,
    Sections := [demoSection, thirdsSection] }

/-- A section of height 100 with two panels side by side. -/
def pairSection : Section :=
  { Height := 100, Font := plainFont, Panels := [demoPanel, sparsePanel] }

/-- A bar with the single section `pairSection`. -/
def pairBar : Bar :=
  { Position := "bottom", Color := "#000000", Height := 100, Sections := [pairSection] }

/-- A 641 by 480 image, of odd width. -/
def oddImage : Image := { Dx := 641, Dy := 480 }

/-- A panel whose label has an empty align and whose value has the align "C". -/
def loosePanel : Panel :=
  { Color := "#101010", BorderWidth := 1, BorderColor := "#202020",
    Labels := [⟨"Mode", ""⟩], Values := [⟨"auto", "C"⟩] }

/-- A section of height 100 holding `loosePanel`. -/
def looseSection : Section := { Height := 100, Font := plainFont, Panels := [loosePanel] }

/-- A bar with the single section `looseSection`. -/
def looseBar : Bar :=
  { Position := "bottom", Color := "#000000", Height := 100, Sections := [looseSection] }

/-- A bar of height 50 whose single section is 100 high. -/
def shortBar : Bar :=
  { Position := "bottom", Color := "#000000", Height := 50, Sections := [demoSection] }

/-- A panel with a single row. -/
def monoPanel : Panel :=
  { Color := "#101010", BorderWidth := 1, BorderColor := "#202020",
    Labels := [⟨"Speed", "L"⟩], Values := [⟨"120", "L"⟩] }

/-- A section as high as an `int` can say, `2 ^ 63 - 1`. -/
def vastSection : Section :=
  { Height := 9223372036854775807, Font := plainFont, Panels := [monoPanel] }

/-- A bar with two sections of height `2 ^ 63 - 1` above a section of height 100. -/
def vastBar : Bar :=
  { Position := "bottom", Color := "#000000", Height := 100,
    Sections := [vastSection, vastSection, demoSection] }

/-- A bar of height -20 without sections. -/
def dipBar : Bar := { Position := "bottom", Color := "#000000", Height := -20, Sections := [] }

/-- A section whose second panel has no labels. -/
def halfBlankSection : Section :=
  { Height := 100, Font := plainFont, Panels := [demoPanel, blankPanel] }

/-- A bar with the single section `halfBlankSection`. -/
def halfBlankBar : Bar :=
  { Position := "bottom", Color := "#000000", Height := 100, Sections := [halfBlankSection] }

/-- A section whose configured height is negative. -/
def sunkSection : Section := { Height := -7, Font := plainFont, Panels := [demoPanel] }

/-- A bar with the single section `sunkSection`. -/
def sunkBar : Bar :=
  { Position := "bottom", Color := "#000000", Height := 0, Sections := [sunkSection] }

/-! ## Basic facts about the Go primitives -/

theorem index_eq_ok {α : Type} {xs : List α} {i : Nat} {x : α} (h : xs[i]? = some x) :
    index xs i = .ok x := by
  simp [index, h]

theorem index_eq_error {α : Type} {xs : List α} {i : Nat} (h : xs.length ≤ i) :
    index xs i = .error .indexOutOfRange := by
  have hnone : xs[i]? = none := List.getElem?_eq_none h
  simp [index, hnone]

theorem lt_of_getElem_some {α : Type} {xs : List α} {i : Nat} {x : α} (h : xs[i]? = some x) :
    i < xs.length := by
  rcases List.getElem?_eq_some.1 h with ⟨hlt, _⟩
  exact hlt

theorem forLoop_zero {σ : Type} (body : Nat → σ → Except Fault σ) (init : σ) :
    forLoop 0 body init = .ok init := rfl

theorem forLoop_succ {σ : Type} (n : Nat) (body : Nat → σ → Except Fault σ) (init : σ) :
    forLoop (n + 1) body init = forLoop n body init >>= body n := by
  simp [forLoop, List.range_succ, List.foldlM_append]

theorem sectionY_succ (bar : Bar) (n : Nat) (sec : Section) (h : bar.Sections[n]? = some sec) :
    sectionY bar (n + 1) = sectionY bar n + sec.Height := by
  simp [sectionY, List.take_succ, h]

/-- The loop of lines 109–112 adds up the heights of the sections before `s`. -/
theorem sectionY_loop (bar : Bar) (s : Nat) (hs : s ≤ bar.Sections.length) :
    forLoop s (fun i y => do
      let sec ← index bar.Sections i
      pure (y + sec.Height)) (0 : Int) = .ok (sectionY bar s) := by
  induction s with
  | zero => simp [forLoop_zero, sectionY]
  | succ n ih =>
    have hn : n < bar.Sections.length := hs
    obtain ⟨sec, hsec⟩ : ∃ sec, bar.Sections[n]? = some sec :=
      ⟨_, List.getElem?_eq_getElem hn⟩
    rw [forLoop_succ, ih (Nat.le_of_lt hn), sectionY_succ bar n sec hsec]
    simp [index_eq_ok hsec, bind, Except.bind, pure, Except.pure]

/-- With its three indices in range, `drawBox` either appends the primitives of the
cell or stops because the font does not load. -/
theorem drawBox_eq (fonts : String → Int → Bool) (st : State) (dc : Context) (s p r : Nat)
    (sec : Section) (pan : Panel) (lab : Label)
    (hs : st.bar.Sections[s]? = some sec) (hp : sec.Panels[p]? = some pan)
    (hr : pan.Labels[r]? = some lab) :
    drawBox fonts st dc s p r =
      if fonts (fontFolder ++ sec.Font.Name) sec.Font.Size then
        .ok { dc with ops := dc.ops ++ cellOps st sec pan lab s p r }
      else .error .fontLoadFailed := by
  have hslt : s < st.bar.Sections.length := lt_of_getElem_some hs
  have hplt : p < sec.Panels.length := lt_of_getElem_some hp
  have hrlt : r < pan.Labels.length := lt_of_getElem_some hr
  have hn : (sec.Panels.length : Int) ≠ 0 := by omega
  have hl : (pan.Labels.length : Int) ≠ 0 := by omega
  simp only [drawBox]
  rw [sectionY_loop st.bar s (Nat.le_of_lt hslt)]
  simp only [index_eq_ok hs, index_eq_ok hp, index_eq_ok hr, intDiv, hn, hl, if_false,
    bind, Except.bind, pure, Except.pure]
  rcases hval : pan.Values[r]? with _ | val
  · have hle : ¬ pan.Values.length > r := by
      intro h
      rw [List.getElem?_eq_getElem h] at hval
      exact Option.noConfusion hval
    cases hf : fonts (fontFolder ++ sec.Font.Name) sec.Font.Size
    · simp only [hle, if_false, Bool.not_false, if_true]
      split_ifs <;> first | rfl | contradiction
    · simp only [hle, if_false, Bool.not_true, if_true, cellOps, hval, labelPlacement,
        Context.emit, List.append_assoc, List.singleton_append, List.cons_append,
        List.nil_append, List.append_nil]
      split_ifs <;> first | rfl | contradiction
  · have hlt : pan.Values.length > r := lt_of_getElem_some hval
    cases hf : fonts (fontFolder ++ sec.Font.Name) sec.Font.Size
    · simp only [hlt, if_true, index_eq_ok hval, Bool.not_false]
      split_ifs <;> first | rfl | contradiction
    · simp only [hlt, if_true, index_eq_ok hval, Bool.not_true, if_false, cellOps, hval,
        labelPlacement, valuePlacement,
        Context.emit, List.append_assoc, List.singleton_append, List.cons_append,
        List.nil_append, List.append_nil]
      split_ifs <;> first | rfl | contradiction

/-! ## What one cell leaves on the surface -/

theorem rectangles_cellOps (st : State) (sec : Section) (pan : Panel) (lab : Label)
    (s p r : Nat) :
    rectangles (cellOps st sec pan lab s p r) =
      [cellRect st sec pan s p r, cellRect st sec pan s p r] := by
  unfold cellOps cellRect
  cases pan.Values[r]? <;> simp [rectangles]

theorem getElem_some_of_lt {α : Type} {xs : List α} {i : Nat} (h : i < xs.length) :
    ∃ x, xs[i]? = some x :=
  ⟨_, List.getElem?_eq_getElem h⟩

/-- With the indices in range and the font loading, `drawBox` completes and
appends exactly the primitives of the cell. -/
theorem drawBox_ok (fonts : String → Int → Bool) (st : State) (dc : Context) (s p r : Nat)
    (sec : Section) (pan : Panel) (lab : Label)
    (hs : st.bar.Sections[s]? = some sec) (hp : sec.Panels[p]? = some pan)
    (hr : pan.Labels[r]? = some lab)
    (hfont : fonts (fontFolder ++ sec.Font.Name) sec.Font.Size = true) :
    drawBox fonts st dc s p r = .ok { dc with ops := dc.ops ++ cellOps st sec pan lab s p r } := by
  rw [drawBox_eq fonts st dc s p r sec pan lab hs hp hr, hfont]
  rfl

theorem texts_cellOps (st : State) (sec : Section) (pan : Panel) (lab : Label)
    (s p r : Nat) :
    texts (cellOps st sec pan lab s p r) =
      labelDraw st sec pan lab s p r
      :: (match pan.Values[r]? with
          | some val => [valueDraw st sec pan val s p r]
          | none => []) := by
  unfold cellOps labelDraw valueDraw cellRect
  cases pan.Values[r]? <;> simp [texts]

/-- Under a decoded image the state has the bar at `(0, imgHeight)`. -/
theorem cellRect_readImgInfo (bar : Bar) (img : Image) (sec : Section) (pan : Panel)
    (s p r : Nat) :
    cellRect (readImgInfo (loaded bar) img) sec pan s p r =
      { x := Int.tdiv img.Dx sec.Panels.length * p
        y := img.Dy + sectionY bar s + Int.tdiv sec.Height pan.Labels.length * r
        width := Int.tdiv img.Dx sec.Panels.length
        height := Int.tdiv sec.Height pan.Labels.length } := by
  simp [cellRect, readImgInfo, loaded, add_assoc]

/-- The width of a panel under a decoded image is not negative, so halving it by
truncation and by floor agree. -/
theorem half_width_floor (img : Image) (n : Nat) :
    (Int.tdiv img.Dx n).tdiv 2 = Int.fdiv (Int.tdiv img.Dx n) 2 := by
  have hw : 0 ≤ Int.tdiv img.Dx n := Int.tdiv_nonneg (Int.ofNat_nonneg _) (Int.ofNat_nonneg _)
  exact (Int.fdiv_eq_tdiv hw (by decide)).symm

theorem rectangles_append (xs ys : List Cmd) :
    rectangles (xs ++ ys) = rectangles xs ++ rectangles ys := by
  induction xs with
  | nil => rfl
  | cons c rest ih => cases c <;> simp [rectangles, ih]

theorem enum_flatMap_head {α β : Type} (xs : List α) (x : α) (h : xs[0]? = some x)
    (f : Nat × α → List β) :
    ∃ rest, xs.enum.flatMap f = f (0, x) ++ rest := by
  cases xs with
  | nil => exact Option.noConfusion h
  | cons a tail =>
    have hax : a = x := by simpa using h
    subst hax
    exact ⟨(List.enumFrom 1 tail).flatMap f, by simp [List.enum_cons]⟩

/-- The first rectangle among the cells of the bar is that of cell `(0, 0, 0)`. -/
theorem rectangles_barOps_head (st : State) (sec : Section) (pan : Panel) (lab : Label)
    (hsec : st.bar.Sections[0]? = some sec) (hpan : sec.Panels[0]? = some pan)
    (hlab : pan.Labels[0]? = some lab) :
    (rectangles (barOps st)).head? = some (cellRect st sec pan 0 0 0) := by
  obtain ⟨rest1, h1⟩ := enum_flatMap_head st.bar.Sections sec hsec
    (fun (s, sec) => sec.Panels.enum.flatMap fun (p, pan) =>
      pan.Labels.enum.flatMap fun (r, lab) => cellOps st sec pan lab s p r)
  obtain ⟨rest2, h2⟩ := enum_flatMap_head sec.Panels pan hpan
    (fun (p, pan) => pan.Labels.enum.flatMap fun (r, lab) => cellOps st sec pan lab 0 p r)
  obtain ⟨rest3, h3⟩ := enum_flatMap_head pan.Labels lab hlab
    (fun (r, lab) => cellOps st sec pan lab 0 0 r)
  have hops : barOps st = cellOps st sec pan lab 0 0 0 ++ (rest3 ++ (rest2 ++ rest1)) := by
    unfold barOps
    rw [h1]
    simp only []
    rw [h2]
    simp only []
    rw [h3, List.append_assoc, List.append_assoc]
  rw [hops, rectangles_append, rectangles_cellOps]
  rfl

theorem specCell_eq (st : State) (s : Nat) (sec : Section) (p : Nat) (pan : Panel) (r : Nat)
    (lab : Label) :
    specCell st s sec p pan r lab = cellOps st sec pan lab s p r := by
  unfold specCell cellOps fillStep fontStep textStep strokeStep labelDraw valueDraw cellRect
  cases pan.Values[r]? <;> rfl

theorem specDraw_eq (st : State) :
    specDraw st = [.SetHexColor st.bar.Color, .Clear] ++ barOps st := by
  simp only [specDraw, barOps, specCell_eq]

theorem everyFont_loads (bar : Bar) : FontsLoad everyFont bar := by
  intro sec _
  rfl

/-! ## Integer division on pixel counts -/

/-- Go's quotient of a non-negative `a` by a positive count `n`: it is the floor
quotient, it is not negative, and `n` times it misses `a` by less than `n`. -/
theorem tdiv_count_bounds (a : Int) (n : Nat) (ha : 0 ≤ a) (hn : 0 < n) :
    a.tdiv n = a.fdiv n ∧ 0 ≤ a.tdiv n ∧ (n : Int) * a.tdiv n ≤ a
      ∧ a - ((n : Int) - 1) ≤ (n : Int) * a.tdiv n := by
  have hn0 : (0 : Int) ≤ n := Int.ofNat_nonneg n
  have hnpos : (0 : Int) < n := by exact_mod_cast hn
  have hediv : a.tdiv n = a / n := Int.tdiv_eq_ediv ha hn0
  refine ⟨(Int.fdiv_eq_tdiv ha hn0).symm, Int.tdiv_nonneg ha hn0, ?_, ?_⟩
  · rw [hediv]
    exact Int.mul_ediv_self_le (ne_of_gt hnpos)
  · rw [hediv]
    have hlt := Int.lt_mul_ediv_self_add (x := a) hnpos
    omega

/-- Steps of a non-negative size: step `i + 1` does not pass step `j` when `i < j`. -/
theorem step_le_step (c : Int) (i j : Nat) (hc : 0 ≤ c) (hij : i < j) :
    c * i + c ≤ c * j := by
  have hcast : (i : Int) + 1 ≤ j := by exact_mod_cast hij
  calc c * i + c = c * ((i : Int) + 1) := by ring
    _ ≤ c * j := mul_le_mul_of_nonneg_left hcast hc

/-! ## Loops that only append to the surface -/

/-- A loop over the indices of `xs` whose body appends `f i xs[i]` appends the
pieces in index order. -/
theorem forLoop_append {α : Type} (xs : List α) (body : Nat → Context → Except Fault Context)
    (f : Nat → α → List Cmd)
    (h : ∀ i x, xs[i]? = some x → ∀ dc : Context,
      body i dc = .ok { dc with ops := dc.ops ++ f i x })
    (dc : Context) :
    forLoop xs.length body dc
      = .ok { dc with ops := dc.ops ++ xs.enum.flatMap fun ix => f ix.1 ix.2 } := by
  induction xs using List.reverseRecOn with
  | nil => simp [forLoop_zero]
  | append_singleton xs a ih =>
    have hprev : ∀ i x, xs[i]? = some x → ∀ dc : Context,
        body i dc = .ok { dc with ops := dc.ops ++ f i x } := by
      intro i x hx
      have hi : i < xs.length := lt_of_getElem_some hx
      exact h i x (by rw [List.getElem?_append_left hi]; exact hx)
    have hlast : (xs ++ [a])[xs.length]? = some a := by
      rw [List.getElem?_append_right (Nat.le_refl _)]
      simp
    rw [List.length_append, List.length_singleton, forLoop_succ, ih hprev]
    simp only [bind, Except.bind]
    rw [h xs.length a hlast]
    simp [List.enum_append, List.flatMap_append, List.enumFrom_singleton]

/-- A loop whose body can stop only on a font stops only on a font. -/
theorem forLoop_fontOnly {σ : Type} (n : Nat) (body : Nat → σ → Except Fault σ) (init : σ)
    (h : ∀ i, i < n → ∀ acc, FontOnly (body i acc)) :
    FontOnly (forLoop n body init) := by
  induction n with
  | zero =>
    intro f hf
    rw [forLoop_zero] at hf
    exact Except.noConfusion hf
  | succ n ih =>
    have hprev := ih (fun i hi acc => h i (Nat.lt_succ_of_lt hi) acc)
    rw [forLoop_succ]
    cases hrun : forLoop n body init with
    | error e =>
      intro f hf
      rw [hrun] at hprev
      have he := hprev e rfl
      simp only [bind, Except.bind] at hf
      cases hf
      exact he
    | ok acc =>
      simp only [bind, Except.bind]
      exact h n (Nat.lt_succ_self n) acc

/-- With its indices in range `drawBox` can stop only on a font. -/
theorem drawBox_fontOnly (fonts : String → Int → Bool) (st : State) (dc : Context)
    (s p r : Nat) (sec : Section) (pan : Panel) (lab : Label)
    (hs : st.bar.Sections[s]? = some sec) (hp : sec.Panels[p]? = some pan)
    (hr : pan.Labels[r]? = some lab) :
    FontOnly (drawBox fonts st dc s p r) := by
  intro f hf
  rw [drawBox_eq fonts st dc s p r sec pan lab hs hp hr] at hf
  by_cases hfont : fonts (fontFolder ++ sec.Font.Name) sec.Font.Size = true
  · rw [if_pos hfont] at hf
    exact Except.noConfusion hf
  · rw [if_neg hfont] at hf
    cases hf
    rfl

/-- Function `draw` can stop only on a font: its loops keep every index in range. -/
theorem draw_fontOnly (fonts : String → Int → Bool) (st : State) (dc : Context) :
    FontOnly (draw fonts st dc) := by
  unfold draw
  apply forLoop_fontOnly
  intro i hi dc1
  obtain ⟨sec, hsec⟩ := getElem_some_of_lt hi
  simp only [index_eq_ok hsec, bind, Except.bind]
  apply forLoop_fontOnly
  intro j hj dc2
  obtain ⟨pan, hpan⟩ := getElem_some_of_lt hj
  simp only [index_eq_ok hpan]
  apply forLoop_fontOnly
  intro k hk dc3
  obtain ⟨lab, hlab⟩ := getElem_some_of_lt hk
  exact drawBox_fontOnly fonts st dc3 i j k sec pan lab hsec hpan hlab

/-- When every font loads, `draw` completes: it clears the surface to the colour of
the bar and appends the primitives of every cell in order. -/
theorem draw_ok (fonts : String → Int → Bool) (st : State) (dc : Context)
    (hfonts : FontsLoad fonts st.bar) :
    draw fonts st dc
      = .ok { dc with
          ops := dc.ops ++ ([.SetHexColor st.bar.Color, .Clear] ++ barOps st) } := by
  unfold draw
  have hloop := forLoop_append st.bar.Sections
    (fun i dc => do
      let sec ← index st.bar.Sections i
      forLoop sec.Panels.length
        (fun j dc => do
          let pan ← index sec.Panels j
          forLoop pan.Labels.length (fun k dc => drawBox fonts st dc i j k) dc)
        dc)
    (fun s sec => sec.Panels.enum.flatMap fun (p, pan) =>
      pan.Labels.enum.flatMap fun (r, lab) => cellOps st sec pan lab s p r)
    (by
      intro i sec hsec dc1
      have hfont : fonts (fontFolder ++ sec.Font.Name) sec.Font.Size = true :=
        hfonts sec (List.mem_iff_getElem?.2 ⟨i, hsec⟩)
      simp only [index_eq_ok hsec, bind, Except.bind]
      exact forLoop_append sec.Panels _
        (fun p pan => pan.Labels.enum.flatMap fun (r, lab) => cellOps st sec pan lab i p r)
        (by
          intro j pan hpan dc2
          simp only [index_eq_ok hpan]
          exact forLoop_append pan.Labels _ (fun r lab => cellOps st sec pan lab i j r)
            (by
              intro k lab hlab dc3
              exact drawBox_ok fonts st dc3 i j k sec pan lab hsec hpan hlab hfont)
            dc2)
        dc1)
  rw [hloop]
  simp [Context.emit, barOps]

theorem labelPlacement_right (w : Int) (lab : Label) (h : lab.Align = "R") :
    labelPlacement w lab = (w.tdiv 2, 1) := by
  unfold labelPlacement
  rw [h]
  rfl

/-! ## Sections stack downward -/

/-- With non-negative heights, a later section starts at or below the bottom of an
earlier one. -/
theorem sectionY_mono (bar : Bar) (hheights : ∀ x ∈ bar.Sections, 0 ≤ x.Height)
    (s t : Nat) (sec : Section) (hs : bar.Sections[s]? = some sec) (hst : s < t)
    (ht : t ≤ bar.Sections.length) :
    sectionY bar s + sec.Height ≤ sectionY bar t := by
  induction t with
  | zero => exact absurd hst (Nat.not_lt_zero s)
  | succ n ih =>
    have hn : n < bar.Sections.length := ht
    obtain ⟨mid, hmid⟩ := getElem_some_of_lt hn
    have hnonneg : 0 ≤ mid.Height := hheights mid (List.mem_iff_getElem?.2 ⟨n, hmid⟩)
    rw [sectionY_succ bar n mid hmid]
    rcases Nat.lt_or_ge s n with hlt | hge
    · have hprev := ih hlt (Nat.le_of_lt hn)
      omega
    · have hsn : s = n := Nat.le_antisymm (Nat.le_of_lt_succ hst) hge
      subst hsn
      rw [hs] at hmid
      cases hmid
      exact le_refl _

/-- Two cells of one state in different positions share no pixel, when no section
height and no image width is negative. -/
theorem cellRect_disjoint (st : State) (hheights : ∀ x ∈ st.bar.Sections, 0 ≤ x.Height)
    (hw : 0 ≤ st.imgWidth)
    (s p r s2 p2 r2 : Nat) (sec sec2 : Section) (pan pan2 : Panel)
    (hs : st.bar.Sections[s]? = some sec) (hp : sec.Panels[p]? = some pan)
    (hr : r < pan.Labels.length)
    (hs2 : st.bar.Sections[s2]? = some sec2) (hp2 : sec2.Panels[p2]? = some pan2)
    (hr2 : r2 < pan2.Labels.length)
    (hne : (s, p, r) ≠ (s2, p2, r2)) (a b : Int) :
    ¬ ((cellRect st sec pan s p r).covers a b ∧ (cellRect st sec2 pan2 s2 p2 r2).covers a b) := by
  have hH : 0 ≤ sec.Height := hheights sec (List.mem_iff_getElem?.2 ⟨s, hs⟩)
  have hH2 : 0 ≤ sec2.Height := hheights sec2 (List.mem_iff_getElem?.2 ⟨s2, hs2⟩)
  have hL : 0 < pan.Labels.length := Nat.lt_of_le_of_lt (Nat.zero_le r) hr
  have hL2 : 0 < pan2.Labels.length := Nat.lt_of_le_of_lt (Nat.zero_le r2) hr2
  have hN : 0 < sec.Panels.length := Nat.lt_of_le_of_lt (Nat.zero_le p) (lt_of_getElem_some hp)
  have hN2 : 0 < sec2.Panels.length :=
    Nat.lt_of_le_of_lt (Nat.zero_le p2) (lt_of_getElem_some hp2)
  obtain ⟨-, hh0, hhle, -⟩ := tdiv_count_bounds sec.Height pan.Labels.length hH hL
  obtain ⟨-, hh20, hh2le, -⟩ := tdiv_count_bounds sec2.Height pan2.Labels.length hH2 hL2
  obtain ⟨-, hw0, -, -⟩ := tdiv_count_bounds st.imgWidth sec.Panels.length hw hN
  obtain ⟨-, hw20, -, -⟩ := tdiv_count_bounds st.imgWidth sec2.Panels.length hw hN2
  -- rows stay inside their section
  have hrow : sec.Height.tdiv pan.Labels.length * r + sec.Height.tdiv pan.Labels.length
      ≤ sec.Height := by
    have hstep := step_le_step (sec.Height.tdiv pan.Labels.length) r pan.Labels.length hh0 hr
    rw [mul_comm] at hhle
    exact le_trans hstep hhle
  have hrow2 : sec2.Height.tdiv pan2.Labels.length * r2 + sec2.Height.tdiv pan2.Labels.length
      ≤ sec2.Height := by
    have hstep := step_le_step (sec2.Height.tdiv pan2.Labels.length) r2 pan2.Labels.length
      hh20 hr2
    rw [mul_comm] at hh2le
    exact le_trans hstep hh2le
  have hrowpos : 0 ≤ sec.Height.tdiv pan.Labels.length * r :=
    mul_nonneg hh0 (Int.ofNat_nonneg r)
  have hrowpos2 : 0 ≤ sec2.Height.tdiv pan2.Labels.length * r2 :=
    mul_nonneg hh20 (Int.ofNat_nonneg r2)
  rintro ⟨⟨hx1, hx2, hy1, hy2⟩, ⟨hx3, hx4, hy3, hy4⟩⟩
  simp only [cellRect] at hx1 hx2 hy1 hy2 hx3 hx4 hy3 hy4
  rcases Nat.lt_trichotomy s s2 with hlt | heq | hgt
  · have hmono := sectionY_mono st.bar hheights s s2 sec hs hlt
      (Nat.le_of_lt (lt_of_getElem_some hs2))
    omega
  · subst heq
    have hsec : sec = sec2 := by
      rw [hs] at hs2
      exact Option.some.inj hs2
    subst hsec
    rcases Nat.lt_trichotomy p p2 with hplt | hpeq | hpgt
    · have hstep := step_le_step (st.imgWidth.tdiv sec.Panels.length) p p2 hw0 hplt
      omega
    · subst hpeq
      have hpan : pan = pan2 := by
        rw [hp] at hp2
        exact Option.some.inj hp2
      subst hpan
      rcases Nat.lt_trichotomy r r2 with hrlt | hreq | hrgt
      · have hstep := step_le_step (sec.Height.tdiv pan.Labels.length) r r2 hh0 hrlt
        omega
      · subst hreq
        exact hne rfl
      · have hstep := step_le_step (sec.Height.tdiv pan.Labels.length) r2 r hh0 hrgt
        omega
    · have hstep := step_le_step (st.imgWidth.tdiv sec.Panels.length) p2 p hw0 hpgt
      omega
  · have hmono := sectionY_mono st.bar hheights s2 s sec2 hs2 hgt
      (Nat.le_of_lt (lt_of_getElem_some hs))
    omega

/-! ## Direct calls of `drawBox` on degenerate panels -/

/-- A direct call of `drawBox` on a panel without labels divides by zero. -/
theorem drawBox_no_labels (fonts : String → Int → Bool) (st : State) (dc : Context)
    (s p r : Nat) (sec : Section) (pan : Panel)
    (hs : st.bar.Sections[s]? = some sec) (hp : sec.Panels[p]? = some pan)
    (hnone : pan.Labels = []) :
    drawBox fonts st dc s p r = .error .divideByZero := by
  simp only [drawBox]
  rw [sectionY_loop st.bar s (Nat.le_of_lt (lt_of_getElem_some hs))]
  simp [index_eq_ok hs, index_eq_ok hp, intDiv, hnone, bind, Except.bind]

/-- A direct call of `drawBox` on a section without panels indexes out of range. -/
theorem drawBox_no_panels (fonts : String → Int → Bool) (st : State) (dc : Context)
    (s p r : Nat) (sec : Section)
    (hs : st.bar.Sections[s]? = some sec) (hnone : sec.Panels = []) :
    drawBox fonts st dc s p r = .error .indexOutOfRange := by
  have hidx : index sec.Panels p = .error .indexOutOfRange :=
    index_eq_error (by rw [hnone]; exact Nat.zero_le p)
  simp only [drawBox]
  rw [sectionY_loop st.bar s (Nat.le_of_lt (lt_of_getElem_some hs))]
  simp [index_eq_ok hs, hidx, bind, Except.bind]

/-! ## C2: horizontal text placement -/

/-- C2.  For every cell of width `w` drawn by `drawBox`, relative to the left edge
of the cell: a label with align "L" is drawn at offset 15 with anchor 0, a label
with align "R" at offset `w / 2` (floor) with anchor 1; a value present at that
row with align "L" is drawn at offset `w / 2 + 15` with anchor 0, and with align
"R" at offset `w - 15` with anchor 1. -/
theorem drawBox_text_placement (fonts : String → Int → Bool) (bar : Bar) (img : Image)
    (dc : Context) (s p r : Nat) (sec : Section) (pan : Panel) (lab : Label)
    (hs : bar.Sections[s]? = some sec) (hp : sec.Panels[p]? = some pan)
    (hlab : pan.Labels[r]? = some lab)
    (hfont : fonts (fontFolder ++ sec.Font.Name) sec.Font.Size = true) :
    ∃ ops cell label,
      drawBox fonts (readImgInfo (loaded bar) img) dc s p r
          = .ok { dc with ops := dc.ops ++ ops }
      ∧ rectangles ops = [cell, cell]
      ∧ (texts ops).head? = some label
      ∧ (lab.Align = "L" → label.x = cell.x + 15 ∧ label.ax = 0)
      ∧ (lab.Align = "R" → label.x = cell.x + Int.fdiv cell.width 2 ∧ label.ax = 1)
      ∧ (∀ val, pan.Values[r]? = some val →
          ∃ value, texts ops = [label, value]
            ∧ (val.Align = "L" →
                value.x = cell.x + (Int.fdiv cell.width 2 + 15) ∧ value.ax = 0)
            ∧ (val.Align = "R" → value.x = cell.x + (cell.width - 15) ∧ value.ax = 1)) := by
  have hrun := drawBox_ok fonts (readImgInfo (loaded bar) img) dc s p r sec pan lab hs hp hlab
    hfont
  have hrects := rectangles_cellOps (readImgInfo (loaded bar) img) sec pan lab s p r
  have htexts := texts_cellOps (readImgInfo (loaded bar) img) sec pan lab s p r
  have hwidth : (cellRect (readImgInfo (loaded bar) img) sec pan s p r).width
      = Int.tdiv img.Dx sec.Panels.length := by
    rw [cellRect_readImgInfo]
  have hhalf : (cellRect (readImgInfo (loaded bar) img) sec pan s p r).width.tdiv 2
      = Int.fdiv (cellRect (readImgInfo (loaded bar) img) sec pan s p r).width 2 := by
    rw [hwidth]; exact half_width_floor img sec.Panels.length
  refine ⟨_, cellRect (readImgInfo (loaded bar) img) sec pan s p r,
    labelDraw (readImgInfo (loaded bar) img) sec pan lab s p r, hrun, hrects, ?_, ?_, ?_, ?_⟩
  · rw [htexts]; rfl
  · intro hL
    simp [labelDraw, labelPlacement, hL]
  · intro hR
    have hne : ¬ lab.Align = "L" := by rw [hR]; decide
    simp only [labelDraw, labelPlacement, hne, hR, if_false, if_true, hhalf]
    constructor <;> rfl
  · intro val hval
    rw [htexts, hval]
    refine ⟨valueDraw (readImgInfo (loaded bar) img) sec pan val s p r, rfl, ?_, ?_⟩
    · intro hL
      simp only [valueDraw, valuePlacement, hL, if_true, hhalf]
      exact ⟨trivial, trivial⟩
    · intro hR
      have hne : ¬ val.Align = "L" := by rw [hR]; decide
      simp only [valueDraw, valuePlacement, hne, hR, if_false, if_true]
      constructor <;> rfl

/-- Witness for `drawBox_text_placement`: row 1 of the sample bar, whose label and
value are both right-aligned. -/
theorem drawBox_text_placement_witness :
    ∃ ops cell label,
      drawBox everyFont (readImgInfo (loaded demoBar) demoImage) (NewContext 640 580) 0 0 1
          = .ok { NewContext 640 580 with ops := (NewContext 640 580).ops ++ ops }
      ∧ rectangles ops = [cell, cell]
      ∧ (texts ops).head? = some label
      ∧ label.x = cell.x + Int.fdiv cell.width 2 ∧ label.ax = 1
      ∧ ∃ value, texts ops = [label, value]
          ∧ value.x = cell.x + (cell.width - 15) ∧ value.ax = 1 := by
  obtain ⟨ops, cell, label, hrun, hrects, hhead, -, hR, hval⟩ :=
    drawBox_text_placement everyFont demoBar demoImage (NewContext 640 580) 0 0 1
      demoSection demoPanel ⟨"Altitude", "R"⟩ (by decide) (by decide) (by decide) (by decide)
  obtain ⟨value, htexts, -, hvR⟩ := hval ⟨"3000", "R"⟩ (by decide)
  exact ⟨ops, cell, label, hrun, hrects, hhead, (hR rfl).1, (hR rfl).2, value, htexts,
    (hvR rfl).1, (hvR rfl).2⟩

/-! ## C3: values are read only where they exist -/

/-- C3.  For every panel and every row `r` below the number of labels: `drawBox`
never stops on an index out of range, and when the font loads it completes, draws
the label text of row `r`, and draws a value text for row `r` exactly when `r` is
below the number of values. -/
theorem drawBox_values_guarded (fonts : String → Int → Bool) (st : State) (dc : Context)
    (s p r : Nat) (sec : Section) (pan : Panel) (lab : Label)
    (hs : st.bar.Sections[s]? = some sec) (hp : sec.Panels[p]? = some pan)
    (hlab : pan.Labels[r]? = some lab) :
    drawBox fonts st dc s p r ≠ .error .indexOutOfRange
    ∧ (fonts (fontFolder ++ sec.Font.Name) sec.Font.Size = true →
        ∃ ops label,
          drawBox fonts st dc s p r = .ok { dc with ops := dc.ops ++ ops }
          ∧ (texts ops).head? = some label ∧ label.s = lab.Text ++ ":"
          ∧ (pan.Values.length ≤ r → texts ops = [label])
          ∧ (r < pan.Values.length →
              ∃ val value, pan.Values[r]? = some val ∧ texts ops = [label, value]
                ∧ value.s = val.Text)
          ∧ ((texts ops).length = 2 ↔ r < pan.Values.length)) := by
  have heq := drawBox_eq fonts st dc s p r sec pan lab hs hp hlab
  constructor
  · rw [heq]
    split_ifs <;> simp
  · intro hfont
    have hrun := drawBox_ok fonts st dc s p r sec pan lab hs hp hlab hfont
    have htexts := texts_cellOps st sec pan lab s p r
    refine ⟨_, labelDraw st sec pan lab s p r, hrun, ?_, rfl, ?_, ?_, ?_⟩
    · rw [htexts]; rfl
    · intro hle
      rw [htexts, List.getElem?_eq_none hle]
    · intro hlt
      obtain ⟨val, hval⟩ := getElem_some_of_lt hlt
      refine ⟨val, valueDraw st sec pan val s p r, hval, ?_, rfl⟩
      rw [htexts, hval]
    · rw [htexts]
      constructor
      · intro hlen
        by_contra hnot
        rw [List.getElem?_eq_none (Nat.le_of_not_lt hnot)] at hlen
        simp at hlen
      · intro hlt
        obtain ⟨val, hval⟩ := getElem_some_of_lt hlt
        rw [hval]
        rfl

/-- Witness for `drawBox_values_guarded`: row 2 of a panel with three labels and
one value completes and draws the label text only. -/
theorem drawBox_values_guarded_witness :
    drawBox everyFont (readImgInfo (loaded sparseBar) demoImage) (NewContext 640 570) 0 0 2
        ≠ .error .indexOutOfRange
    ∧ ∃ ops label,
        drawBox everyFont (readImgInfo (loaded sparseBar) demoImage) (NewContext 640 570) 0 0 2
          = .ok { NewContext 640 570 with ops := (NewContext 640 570).ops ++ ops }
        ∧ label.s = "Heading:" ∧ texts ops = [label] := by
  obtain ⟨hsafe, hdraw⟩ :=
    drawBox_values_guarded everyFont (readImgInfo (loaded sparseBar) demoImage)
      (NewContext 640 570) 0 0 2 sparseSection sparsePanel ⟨"Heading", "L"⟩
      (by decide) (by decide) (by decide)
  obtain ⟨ops, label, hrun, -, hs, honly, -, -⟩ := hdraw (by decide)
  exact ⟨hsafe, ops, label, hrun, by rw [hs]; decide, honly (by decide)⟩

/-! ## C5: the order of drawing -/

/-- C5.  For every bar, `draw` first clears the whole surface to `bar.Color` and
then issues exactly one cell drawing for each triple `(s, p, r)` with a label, in
section-then-panel-then-row order; within a cell the primitives are, in order:
the fill of the cell rectangle in the colour of the panel, the label text in the
font and font colour of the section, the value text if the row has one, and the
stroke of the same rectangle in the border colour and border width of the panel. -/
theorem draw_refines_renderer (fonts : String → Int → Bool) (st : State) (dc : Context)
    (hfonts : FontsLoad fonts st.bar) :
    draw fonts st dc = .ok { dc with ops := dc.ops ++ specDraw st } := by
  rw [draw_ok fonts st dc hfonts, specDraw_eq]

/-- Witness for `draw_refines_renderer`: the primitives of the sample bar, spelled
out. -/
theorem draw_refines_renderer_witness :
    draw everyFont (readImgInfo (loaded demoBar) demoImage) (NewContext 640 580)
      = .ok { width := 640, height := 580, ops :=
          [ .SetHexColor "#000000", .Clear,
            .SetHexColor "#101010", .DrawRectangle 0 480 640 50, .Fill,
            .LoadFontFace "font/a.ttf" 12, .SetHexColor "#ffffff",
            .DrawStringAnchored "Speed:" 15 505 0 half,
            .DrawStringAnchored "120" 335 505 0 half,
            .SetHexColor "#202020", .SetLineWidth 1, .DrawRectangle 0 480 640 50, .Stroke,
            .SetHexColor "#101010", .DrawRectangle 0 530 640 50, .Fill,
            .LoadFontFace "font/a.ttf" 12, .SetHexColor "#ffffff",
            .DrawStringAnchored "Altitude:" 320 555 1 half,
            .DrawStringAnchored "3000" 625 555 1 half,
            .SetHexColor "#202020", .SetLineWidth 1, .DrawRectangle 0 530 640 50, .Stroke ] } := by
  rw [draw_refines_renderer everyFont _ _ (everyFont_loads demoBar)]
  decide

/-! ## C6 and C7: what integer division leaves over -/

/-- C6.  For every section with at least one panel and every non-negative image
width, the panel width that `drawBox` computes is the floor of
`imgWidth / panelCount`, the same for every panel of the section, and the sum of
the panel widths, `panelCount * (imgWidth / panelCount)`, is at most `imgWidth`,
at least `imgWidth - (panelCount - 1)`, and not negative. -/
theorem panel_widths_sum (fonts : String → Int → Bool) (st : State) (dc : Context)
    (s p r : Nat) (sec : Section) (pan : Panel)
    (hs : st.bar.Sections[s]? = some sec) (hp : sec.Panels[p]? = some pan)
    (hr : r < pan.Labels.length)
    (hfont : fonts (fontFolder ++ sec.Font.Name) sec.Font.Size = true)
    (hw : 0 ≤ st.imgWidth) :
    ∃ ops cell,
      drawBox fonts st dc s p r = .ok { dc with ops := dc.ops ++ ops }
      ∧ rectangles ops = [cell, cell]
      ∧ cell.width = Int.fdiv st.imgWidth sec.Panels.length
      ∧ (sec.Panels.length : Int) * cell.width ≤ st.imgWidth
      ∧ st.imgWidth - ((sec.Panels.length : Int) - 1) ≤ (sec.Panels.length : Int) * cell.width
      ∧ 0 ≤ (sec.Panels.length : Int) * cell.width
      ∧ ((List.range sec.Panels.length).map fun _ => cell.width).sum
          = (sec.Panels.length : Int) * cell.width := by
  obtain ⟨lab, hlab⟩ := getElem_some_of_lt hr
  have hn : 0 < sec.Panels.length := Nat.lt_of_le_of_lt (Nat.zero_le p) (lt_of_getElem_some hp)
  obtain ⟨hfloor, hnonneg, hle, hge⟩ := tdiv_count_bounds st.imgWidth sec.Panels.length hw hn
  refine ⟨_, cellRect st sec pan s p r, drawBox_ok fonts st dc s p r sec pan lab hs hp hlab hfont,
    rectangles_cellOps st sec pan lab s p r, hfloor, hle, hge, ?_, ?_⟩
  · exact mul_nonneg (Int.ofNat_nonneg _) hnonneg
  · simp [cellRect]

/-- Witness for `panel_widths_sum`: three panels under an image 640 wide are 213
wide each and leave one column over. -/
theorem panel_widths_sum_witness :
    ∃ ops cell,
      drawBox everyFont (readImgInfo (loaded thirdsBar) demoImage) (NewContext 640 580) 0 2 0
          = .ok { NewContext 640 580 with ops := (NewContext 640 580).ops ++ ops }
      ∧ rectangles ops = [cell, cell]
      ∧ cell.width = 213
      ∧ (3 : Int) * cell.width ≤ 640 ∧ (640 : Int) - (3 - 1) ≤ 3 * cell.width := by
  obtain ⟨ops, cell, hrun, hrects, hwidth, hle, hge, -, -⟩ :=
    panel_widths_sum everyFont (readImgInfo (loaded thirdsBar) demoImage) (NewContext 640 580)
      0 2 0 thirdsSection demoPanel (by decide) (by decide) (by decide) (by decide) (by decide)
  exact ⟨ops, cell, hrun, hrects, by rw [hwidth]; decide, hle, hge⟩

/-- C7.  For every panel with at least one label in a section of non-negative
height, the row height that `drawBox` computes is the floor of
`Height / rowCount`, and the sum of the row heights,
`rowCount * (Height / rowCount)`, is at most `Height` and at least
`Height - (rowCount - 1)`. -/
theorem row_heights_sum (fonts : String → Int → Bool) (st : State) (dc : Context)
    (s p r : Nat) (sec : Section) (pan : Panel)
    (hs : st.bar.Sections[s]? = some sec) (hp : sec.Panels[p]? = some pan)
    (hr : r < pan.Labels.length)
    (hfont : fonts (fontFolder ++ sec.Font.Name) sec.Font.Size = true)
    (hH : 0 ≤ sec.Height) :
    ∃ ops cell,
      drawBox fonts st dc s p r = .ok { dc with ops := dc.ops ++ ops }
      ∧ rectangles ops = [cell, cell]
      ∧ cell.height = Int.fdiv sec.Height pan.Labels.length
      ∧ (pan.Labels.length : Int) * cell.height ≤ sec.Height
      ∧ sec.Height - ((pan.Labels.length : Int) - 1) ≤ (pan.Labels.length : Int) * cell.height
      ∧ ((List.range pan.Labels.length).map fun _ => cell.height).sum
          = (pan.Labels.length : Int) * cell.height := by
  obtain ⟨lab, hlab⟩ := getElem_some_of_lt hr
  have hn : 0 < pan.Labels.length := Nat.lt_of_le_of_lt (Nat.zero_le r) hr
  obtain ⟨hfloor, -, hle, hge⟩ := tdiv_count_bounds sec.Height pan.Labels.length hH hn
  refine ⟨_, cellRect st sec pan s p r, drawBox_ok fonts st dc s p r sec pan lab hs hp hlab hfont,
    rectangles_cellOps st sec pan lab s p r, hfloor, hle, hge, ?_⟩
  simp [cellRect]

/-- Witness for `row_heights_sum`: three rows in a section of height 100 are 33
high each and leave one pixel row over. -/
theorem row_heights_sum_witness :
    ∃ ops cell,
      drawBox everyFont (readImgInfo (loaded tallBar) demoImage) (NewContext 640 580) 0 0 2
          = .ok { NewContext 640 580 with ops := (NewContext 640 580).ops ++ ops }
      ∧ rectangles ops = [cell, cell]
      ∧ cell.height = 33
      ∧ (3 : Int) * cell.height ≤ 100 ∧ (100 : Int) - (3 - 1) ≤ 3 * cell.height := by
  obtain ⟨ops, cell, hrun, hrects, hheight, hle, hge, -⟩ :=
    row_heights_sum everyFont (readImgInfo (loaded tallBar) demoImage) (NewContext 640 580)
      0 0 2 tallSection sparsePanel (by decide) (by decide) (by decide) (by decide) (by decide)
  exact ⟨ops, cell, hrun, hrects, by rw [hheight]; decide, hle, hge⟩

/-! ## C8: the right-aligned label -/

/-- C8, as amended.  For every cell drawn by `drawBox`: a label with align "L" has
horizontal anchor 0 and x-offset exactly 15; a label with align "R" has horizontal
anchor 1 and x-offset half the cell width (floor), which is left of the right edge
of the cell whenever the cell has a positive width. -/
theorem drawBox_label_anchor (fonts : String → Int → Bool) (bar : Bar) (img : Image)
    (dc : Context) (s p r : Nat) (sec : Section) (pan : Panel) (lab : Label)
    (hs : bar.Sections[s]? = some sec) (hp : sec.Panels[p]? = some pan)
    (hlab : pan.Labels[r]? = some lab)
    (hfont : fonts (fontFolder ++ sec.Font.Name) sec.Font.Size = true) :
    ∃ ops cell label,
      drawBox fonts (readImgInfo (loaded bar) img) dc s p r
          = .ok { dc with ops := dc.ops ++ ops }
      ∧ rectangles ops = [cell, cell]
      ∧ (texts ops).head? = some label
      ∧ label.s = lab.Text ++ ":"
      ∧ (lab.Align = "L" → label.ax = 0 ∧ label.x - cell.x = 15)
      ∧ (lab.Align = "R" →
          label.ax = 1 ∧ label.x - cell.x = Int.fdiv cell.width 2
            ∧ (0 < cell.width → label.x - cell.x < cell.width)) := by
  have hrun := drawBox_ok fonts (readImgInfo (loaded bar) img) dc s p r sec pan lab hs hp hlab
    hfont
  have hrects := rectangles_cellOps (readImgInfo (loaded bar) img) sec pan lab s p r
  have htexts := texts_cellOps (readImgInfo (loaded bar) img) sec pan lab s p r
  have hwidth : (cellRect (readImgInfo (loaded bar) img) sec pan s p r).width
      = Int.tdiv img.Dx sec.Panels.length := by
    rw [cellRect_readImgInfo]
  have hhalf : (cellRect (readImgInfo (loaded bar) img) sec pan s p r).width.tdiv 2
      = Int.fdiv (cellRect (readImgInfo (loaded bar) img) sec pan s p r).width 2 := by
    rw [hwidth]; exact half_width_floor img sec.Panels.length
  refine ⟨_, cellRect (readImgInfo (loaded bar) img) sec pan s p r,
    labelDraw (readImgInfo (loaded bar) img) sec pan lab s p r, hrun, hrects, ?_, rfl, ?_, ?_⟩
  · rw [htexts]; rfl
  · intro hL
    simp [labelDraw, labelPlacement, hL]
  · intro hR
    have hx : (labelDraw (readImgInfo (loaded bar) img) sec pan lab s p r).x
        - (cellRect (readImgInfo (loaded bar) img) sec pan s p r).x
        = Int.fdiv (cellRect (readImgInfo (loaded bar) img) sec pan s p r).width 2 := by
      simp only [labelDraw, labelPlacement_right _ lab hR, hhalf]
      ring
    refine ⟨by simp only [labelDraw, labelPlacement_right _ lab hR], hx, ?_⟩
    intro hpos
    rw [hx, Int.fdiv_eq_ediv _ (by decide)]
    omega

/-- Witness for `drawBox_label_anchor`: the right-aligned label of row 1 of the
sample bar. -/
theorem drawBox_label_anchor_witness :
    ∃ ops cell label,
      drawBox everyFont (readImgInfo (loaded demoBar) demoImage) (NewContext 640 580) 0 0 1
          = .ok { NewContext 640 580 with ops := (NewContext 640 580).ops ++ ops }
      ∧ rectangles ops = [cell, cell]
      ∧ (texts ops).head? = some label
      ∧ label.s = "Altitude:"
      ∧ label.ax = 1 ∧ label.x - cell.x = Int.fdiv cell.width 2 := by
  obtain ⟨ops, cell, label, hrun, hrects, hhead, hs, -, hR⟩ :=
    drawBox_label_anchor everyFont demoBar demoImage (NewContext 640 580) 0 0 1
      demoSection demoPanel ⟨"Altitude", "R"⟩ (by decide) (by decide) (by decide) (by decide)
  exact ⟨ops, cell, label, hrun, hrects, hhead, by rw [hs]; decide, (hR rfl).1, (hR rfl).2.1⟩

/-- C8, counterexample to "x-offset equal to the cell width": in the one-panel
scenario under an image 640 wide, "Altitude:" is right-anchored at x = 320 in a
cell that starts at x = 0 and is 640 wide. -/
theorem label_right_offset_not_width :
    (texts (issued (drawBox everyFont (readImgInfo (loaded demoBar) demoImage)
        (NewContext 640 580) 0 0 1))).map (fun t => (t.s, t.x, t.ax))
      = [("Altitude:", 320, 1), ("3000", 625, 1)]
    ∧ rectangles (issued (drawBox everyFont (readImgInfo (loaded demoBar) demoImage)
        (NewContext 640 580) 0 0 1))
      = [⟨0, 530, 640, 50⟩, ⟨0, 530, 640, 50⟩]
    ∧ (320 : Int) - 0 ≠ 640 := by
  decide

/-! ## C9: empty sections and empty panels -/

/-- C9, as amended.  `draw` never divides by zero and never indexes out of range:
its loops call `drawBox` only with a panel index below the panel count and a row
index below the label count, so a section without panels or a panel without
labels contributes no cell and the run completes whenever the fonts load.  Only
a direct call of `drawBox` faults: with a division by zero on a panel without
labels, with an index out of range on a section without panels. -/
theorem draw_guards_division (fonts : String → Int → Bool) (st : State) (dc : Context) :
    draw fonts st dc ≠ .error .divideByZero
    ∧ draw fonts st dc ≠ .error .indexOutOfRange
    ∧ (FontsLoad fonts st.bar →
        draw fonts st dc
          = .ok { dc with
              ops := dc.ops ++ ([.SetHexColor st.bar.Color, .Clear] ++ barOps st) })
    ∧ (∀ s p r sec pan, st.bar.Sections[s]? = some sec → sec.Panels[p]? = some pan →
        pan.Labels = [] → drawBox fonts st dc s p r = .error .divideByZero)
    ∧ (∀ s p r sec, st.bar.Sections[s]? = some sec → sec.Panels = [] →
        drawBox fonts st dc s p r = .error .indexOutOfRange) := by
  have honly := draw_fontOnly fonts st dc
  refine ⟨?_, ?_, draw_ok fonts st dc, ?_, ?_⟩
  · intro h
    exact Fault.noConfusion (honly _ h)
  · intro h
    exact Fault.noConfusion (honly _ h)
  · intro s p r sec pan hs hp hnone
    exact drawBox_no_labels fonts st dc s p r sec pan hs hp hnone
  · intro s p r sec hs hnone
    exact drawBox_no_panels fonts st dc s p r sec hs hnone

/-- Witness for `draw_guards_division`: on the bar whose only panel has no labels
`draw` completes with the clearing of the surface alone, and a direct call of
`drawBox` on that panel divides by zero. -/
theorem draw_guards_division_witness :
    draw everyFont (readImgInfo (loaded blankBar) demoImage) (NewContext 640 580)
        = .ok { width := 640, height := 580, ops := [.SetHexColor "#000000", .Clear] }
    ∧ drawBox everyFont (readImgInfo (loaded blankBar) demoImage) (NewContext 640 580) 0 0 0
        = .error .divideByZero := by
  obtain ⟨-, -, hdraw, hlabels, -⟩ :=
    draw_guards_division everyFont (readImgInfo (loaded blankBar) demoImage) (NewContext 640 580)
  refine ⟨?_, hlabels 0 0 0 blankSection blankPanel (by decide) (by decide) (by decide)⟩
  rw [hdraw (everyFont_loads blankBar)]
  decide

/-- C9, counterexample to "the run faults rather than completing": the runs on the
bar whose section has no panels and on the bar whose panel has no labels both
complete, with no cell drawn. -/
theorem main_completes_on_empty :
    main everyFont hollowBar demoImage
        = .ok { width := 640, height := 580,
                ops := [.SetHexColor "#000000", .Clear, .DrawImage demoImage 0 0] }
    ∧ main everyFont blankBar demoImage
        = .ok { width := 640, height := 580,
                ops := [.SetHexColor "#000000", .Clear, .DrawImage demoImage 0 0] } := by
  decide

/-! ## Columns and steps -/

/-- Every column below `n` steps of size `c` lies in exactly one of the steps. -/
theorem column_in_some_step (c : Int) (n : Nat) (a : Int) (h0 : 0 ≤ a) (h : a < n * c) :
    ∃ p : Nat, p < n ∧ c * p ≤ a ∧ a < c * p + c := by
  have hc : 0 < c := by
    by_contra hneg
    have hle : c ≤ 0 := not_lt.1 hneg
    have hprod : (n : Int) * c ≤ 0 := mul_nonpos_of_nonneg_of_nonpos (Int.ofNat_nonneg n) hle
    omega
  have hq0 : 0 ≤ a / c := Int.ediv_nonneg h0 (le_of_lt hc)
  have hqn : a / c < n := Int.ediv_lt_of_lt_mul hc h
  have hcast : ((a / c).toNat : Int) = a / c := Int.toNat_of_nonneg hq0
  refine ⟨(a / c).toNat, ?_, ?_, ?_⟩
  · have hlt : ((a / c).toNat : Int) < n := by rw [hcast]; exact hqn
    exact_mod_cast hlt
  · rw [hcast]
    exact Int.mul_ediv_self_le (ne_of_gt hc)
  · rw [hcast]
    exact Int.lt_mul_ediv_self_add hc

/-! ## C12: the rows of one panel -/

/-- C12, as amended.  For every panel, within one row the fill and the border stroke
use the same rectangle, and the rectangles of two rows of the panel have the same
x, width and height; their y differs by the row height times the difference of the
row indices, so two rows redraw the same rectangle only when they are the same row
or the row height is 0. -/
theorem rows_share_columns (fonts : String → Int → Bool) (st : State) (dc dc2 : Context)
    (s p r r2 : Nat) (sec : Section) (pan : Panel)
    (hs : st.bar.Sections[s]? = some sec) (hp : sec.Panels[p]? = some pan)
    (hr : r < pan.Labels.length) (hr2 : r2 < pan.Labels.length)
    (hfont : fonts (fontFolder ++ sec.Font.Name) sec.Font.Size = true) :
    ∃ ops ops2 cell cell2,
      drawBox fonts st dc s p r = .ok { dc with ops := dc.ops ++ ops }
      ∧ drawBox fonts st dc2 s p r2 = .ok { dc2 with ops := dc2.ops ++ ops2 }
      ∧ rectangles ops = [cell, cell] ∧ rectangles ops2 = [cell2, cell2]
      ∧ cell2.x = cell.x ∧ cell2.width = cell.width ∧ cell2.height = cell.height
      ∧ cell2.y - cell.y = cell.height * ((r2 : Int) - r)
      ∧ (cell2 = cell ↔ r2 = r ∨ cell.height = 0) := by
  obtain ⟨lab, hlab⟩ := getElem_some_of_lt hr
  obtain ⟨lab2, hlab2⟩ := getElem_some_of_lt hr2
  have hy : (cellRect st sec pan s p r2).y - (cellRect st sec pan s p r).y
      = (cellRect st sec pan s p r).height * ((r2 : Int) - r) := by
    simp only [cellRect]
    ring
  refine ⟨_, _, cellRect st sec pan s p r, cellRect st sec pan s p r2,
    drawBox_ok fonts st dc s p r sec pan lab hs hp hlab hfont,
    drawBox_ok fonts st dc2 s p r2 sec pan lab2 hs hp hlab2 hfont,
    rectangles_cellOps st sec pan lab s p r, rectangles_cellOps st sec pan lab2 s p r2,
    rfl, rfl, rfl, hy, ?_⟩
  constructor
  · intro heq
    have hzero : (cellRect st sec pan s p r).height * ((r2 : Int) - r) = 0 := by
      rw [← hy, heq]; ring
    rcases mul_eq_zero.1 hzero with hh | hrr
    · exact Or.inr hh
    · left
      have hcast : (r2 : Int) = r := by omega
      exact_mod_cast hcast
  · rintro (hrr | hh)
    · rw [hrr]
    · have hh2 : sec.Height.tdiv pan.Labels.length = 0 := hh
      simp only [cellRect, hh2, zero_mul]

/-- Witness for `rows_share_columns`: rows 0 and 1 of the sample panel have the
same x, width and height and lie one row height apart. -/
theorem rows_share_columns_witness :
    ∃ ops ops2 cell cell2,
      drawBox everyFont (readImgInfo (loaded demoBar) demoImage) (NewContext 640 580) 0 0 0
          = .ok { NewContext 640 580 with ops := (NewContext 640 580).ops ++ ops }
      ∧ drawBox everyFont (readImgInfo (loaded demoBar) demoImage) (NewContext 640 580) 0 0 1
          = .ok { NewContext 640 580 with ops := (NewContext 640 580).ops ++ ops2 }
      ∧ rectangles ops = [cell, cell] ∧ rectangles ops2 = [cell2, cell2]
      ∧ cell2.x = cell.x ∧ cell2.width = cell.width ∧ cell2.height = cell.height
      ∧ cell2.y - cell.y = cell.height * ((1 : Nat) - (0 : Nat) : Int) := by
  obtain ⟨ops, ops2, cell, cell2, hrun, hrun2, hrects, hrects2, hx, hwidth, hheight, hy, -⟩ :=
    rows_share_columns everyFont (readImgInfo (loaded demoBar) demoImage) (NewContext 640 580)
      (NewContext 640 580) 0 0 0 1 demoSection demoPanel (by decide) (by decide) (by decide)
      (by decide) (by decide)
  exact ⟨ops, ops2, cell, cell2, hrun, hrun2, hrects, hrects2, hx, hwidth, hheight, hy⟩

/-- C12, counterexample to "every row redraws the same rectangle": rows 0 and 1 of
the sample panel are drawn at y = 480 and at y = 530. -/
theorem rows_are_not_one_rectangle :
    rectangles (issued (drawBox everyFont (readImgInfo (loaded demoBar) demoImage)
        (NewContext 640 580) 0 0 0))
      = [⟨0, 480, 640, 50⟩, ⟨0, 480, 640, 50⟩]
    ∧ rectangles (issued (drawBox everyFont (readImgInfo (loaded demoBar) demoImage)
        (NewContext 640 580) 0 0 1))
      = [⟨0, 530, 640, 50⟩, ⟨0, 530, 640, 50⟩]
    ∧ rectangles (issued (drawBox everyFont (readImgInfo (loaded demoBar) demoImage)
        (NewContext 640 580) 0 0 0))
      ≠ rectangles (issued (drawBox everyFont (readImgInfo (loaded demoBar) demoImage)
        (NewContext 640 580) 0 0 1)) := by
  decide

/-! ## C13: vertical text placement -/

/-- C13, as amended.  For every cell with top edge `y` and height `h` drawn by
`drawBox`, the label text and, when present, the value text are drawn at the
vertical coordinate `y + h / 2` with vertical anchor 0.5, whatever the align
designators are; `/` is Go's integer division, which truncates toward zero, and is
the floor division when the height of the section is not negative. -/
theorem drawBox_text_vertical (fonts : String → Int → Bool) (st : State) (dc : Context)
    (s p r : Nat) (sec : Section) (pan : Panel) (lab : Label)
    (hs : st.bar.Sections[s]? = some sec) (hp : sec.Panels[p]? = some pan)
    (hlab : pan.Labels[r]? = some lab)
    (hfont : fonts (fontFolder ++ sec.Font.Name) sec.Font.Size = true) :
    ∃ ops cell,
      drawBox fonts st dc s p r = .ok { dc with ops := dc.ops ++ ops }
      ∧ rectangles ops = [cell, cell]
      ∧ texts ops ≠ []
      ∧ (∀ t ∈ texts ops, t.y = cell.y + cell.height.tdiv 2 ∧ t.ay = half)
      ∧ (0 ≤ sec.Height → ∀ t ∈ texts ops, t.y = cell.y + Int.fdiv cell.height 2) := by
  have htexts := texts_cellOps st sec pan lab s p r
  have hall : ∀ t ∈ texts (cellOps st sec pan lab s p r),
      t.y = (cellRect st sec pan s p r).y + (cellRect st sec pan s p r).height.tdiv 2
        ∧ t.ay = half := by
    intro t ht
    rw [htexts] at ht
    rcases List.mem_cons.1 ht with hl | hv
    · rw [hl]
      exact ⟨rfl, rfl⟩
    · rcases hval : pan.Values[r]? with _ | val
      · rw [hval] at hv
        exact absurd hv (List.not_mem_nil t)
      · rw [hval] at hv
        have ht2 : t = valueDraw st sec pan val s p r := by simpa using hv
        rw [ht2]
        exact ⟨rfl, rfl⟩
  refine ⟨_, cellRect st sec pan s p r,
    drawBox_ok fonts st dc s p r sec pan lab hs hp hlab hfont,
    rectangles_cellOps st sec pan lab s p r, ?_, hall, ?_⟩
  · rw [htexts]
    exact List.cons_ne_nil _ _
  · intro hH t ht
    have hrow : 0 ≤ (cellRect st sec pan s p r).height :=
      Int.tdiv_nonneg hH (Int.ofNat_nonneg _)
    rw [(hall t ht).1, Int.fdiv_eq_tdiv hrow (by decide)]

/-- Witness for `drawBox_text_vertical`: the two strings of row 1 of the sample bar
are drawn at y = 555, the middle of the cell from 530 to 580. -/
theorem drawBox_text_vertical_witness :
    ∃ ops cell,
      drawBox everyFont (readImgInfo (loaded demoBar) demoImage) (NewContext 640 580) 0 0 1
          = .ok { NewContext 640 580 with ops := (NewContext 640 580).ops ++ ops }
      ∧ rectangles ops = [cell, cell]
      ∧ texts ops ≠ []
      ∧ ∀ t ∈ texts ops, t.y = cell.y + Int.fdiv cell.height 2 ∧ t.ay = half := by
  obtain ⟨ops, cell, hrun, hrects, hsome, hall, hfloor⟩ :=
    drawBox_text_vertical everyFont (readImgInfo (loaded demoBar) demoImage)
      (NewContext 640 580) 0 0 1 demoSection demoPanel ⟨"Altitude", "R"⟩
      (by decide) (by decide) (by decide) (by decide)
  exact ⟨ops, cell, hrun, hrects, hsome,
    fun t ht => ⟨hfloor (by decide) t ht, (hall t ht).2⟩⟩

/-- C13, counterexample to "integer floor division": in a section of height -7 with
two rows the cell of row 0 has top edge 10 and height -3; its strings are drawn at
y = 9, while the floor of -3 / 2 gives y = 8. -/
theorem text_vertical_not_floor :
    rectangles (issued (drawBox everyFont (readImgInfo (loaded sunkBar) ⟨10, 10⟩)
        (NewContext 10 10) 0 0 0))
      = [⟨0, 10, 10, -3⟩, ⟨0, 10, 10, -3⟩]
    ∧ (texts (issued (drawBox everyFont (readImgInfo (loaded sunkBar) ⟨10, 10⟩)
        (NewContext 10 10) 0 0 0))).map (fun t => (t.s, t.y))
      = [("Speed:", 9), ("120", 9)]
    ∧ (10 : Int) + Int.fdiv (-3) 2 = 8 := by
  decide

/-! ## C14: the strings drawn -/

/-- C14.  For every label row drawn by `drawBox`, the label string given to the text
primitive is the `Text` of the label followed by the single character ":", and the
value string, when the row has a value, is the `Text` of the value unchanged. -/
theorem drawBox_text_strings (fonts : String → Int → Bool) (st : State) (dc : Context)
    (s p r : Nat) (sec : Section) (pan : Panel) (lab : Label)
    (hs : st.bar.Sections[s]? = some sec) (hp : sec.Panels[p]? = some pan)
    (hlab : pan.Labels[r]? = some lab)
    (hfont : fonts (fontFolder ++ sec.Font.Name) sec.Font.Size = true) :
    ∃ ops,
      drawBox fonts st dc s p r = .ok { dc with ops := dc.ops ++ ops }
      ∧ (texts ops).map (fun t => t.s)
          = (lab.Text ++ ":") ::
              (match pan.Values[r]? with
               | some val => [val.Text]
               | none => [])
      ∧ (lab.Text ++ ":").data = lab.Text.data ++ [':'] := by
  refine ⟨_, drawBox_ok fonts st dc s p r sec pan lab hs hp hlab hfont, ?_, ?_⟩
  · rw [texts_cellOps]
    cases pan.Values[r]? <;> rfl
  · exact String.data_append lab.Text ":"

/-- Witness for `drawBox_text_strings`: row 0 of the sample bar draws "Speed:" and
"120". -/
theorem drawBox_text_strings_witness :
    ∃ ops,
      drawBox everyFont (readImgInfo (loaded demoBar) demoImage) (NewContext 640 580) 0 0 0
          = .ok { NewContext 640 580 with ops := (NewContext 640 580).ops ++ ops }
      ∧ (texts ops).map (fun t => t.s) = ["Speed:", "120"] := by
  obtain ⟨ops, hrun, hstrings, -⟩ :=
    drawBox_text_strings everyFont (readImgInfo (loaded demoBar) demoImage)
      (NewContext 640 580) 0 0 0 demoSection demoPanel ⟨"Speed", "L"⟩
      (by decide) (by decide) (by decide) (by decide)
  exact ⟨ops, hrun, by rw [hstrings]; decide⟩

/-! ## C16: align designators other than "L" and "R" -/

/-- C16.  For every label or value whose align is neither "L" nor "R", the empty
string included, `drawBox` completes and draws that text at the left edge of the
cell, x-offset 0, with horizontal anchor 0. -/
theorem drawBox_unknown_align (fonts : String → Int → Bool) (st : State) (dc : Context)
    (s p r : Nat) (sec : Section) (pan : Panel) (lab : Label)
    (hs : st.bar.Sections[s]? = some sec) (hp : sec.Panels[p]? = some pan)
    (hlab : pan.Labels[r]? = some lab)
    (hfont : fonts (fontFolder ++ sec.Font.Name) sec.Font.Size = true) :
    ∃ ops cell label,
      drawBox fonts st dc s p r = .ok { dc with ops := dc.ops ++ ops }
      ∧ rectangles ops = [cell, cell]
      ∧ (texts ops).head? = some label
      ∧ (lab.Align ≠ "L" → lab.Align ≠ "R" → label.x = cell.x + 0 ∧ label.ax = 0)
      ∧ (∀ val, pan.Values[r]? = some val →
          ∃ value, texts ops = [label, value]
            ∧ (val.Align ≠ "L" → val.Align ≠ "R" → value.x = cell.x + 0 ∧ value.ax = 0)) := by
  have htexts := texts_cellOps st sec pan lab s p r
  refine ⟨_, cellRect st sec pan s p r, labelDraw st sec pan lab s p r,
    drawBox_ok fonts st dc s p r sec pan lab hs hp hlab hfont,
    rectangles_cellOps st sec pan lab s p r, ?_, ?_, ?_⟩
  · rw [htexts]; rfl
  · intro hL hR
    have hpl : labelPlacement (cellRect st sec pan s p r).width lab = (0, 0) := by
      simp only [labelPlacement, hL, hR, if_false]
    exact ⟨by simp only [labelDraw, hpl], by simp only [labelDraw, hpl]⟩
  · intro val hval
    rw [htexts, hval]
    refine ⟨valueDraw st sec pan val s p r, rfl, ?_⟩
    intro hL hR
    have hpl : valuePlacement (cellRect st sec pan s p r).width val = (0, 0) := by
      simp only [valuePlacement, hL, hR, if_false]
    exact ⟨by simp only [valueDraw, hpl], by simp only [valueDraw, hpl]⟩

/-- Witness for `drawBox_unknown_align`: a label with an empty align and a value
with the align "C" are both drawn at the left edge of the cell with anchor 0. -/
theorem drawBox_unknown_align_witness :
    ∃ ops cell label value,
      drawBox everyFont (readImgInfo (loaded looseBar) demoImage) (NewContext 640 580) 0 0 0
          = .ok { NewContext 640 580 with ops := (NewContext 640 580).ops ++ ops }
      ∧ rectangles ops = [cell, cell]
      ∧ texts ops = [label, value]
      ∧ label.x = cell.x + 0 ∧ label.ax = 0
      ∧ value.x = cell.x + 0 ∧ value.ax = 0 := by
  obtain ⟨ops, cell, label, hrun, hrects, -, hlabel, hvalue⟩ :=
    drawBox_unknown_align everyFont (readImgInfo (loaded looseBar) demoImage)
      (NewContext 640 580) 0 0 0 looseSection loosePanel ⟨"Mode", ""⟩
      (by decide) (by decide) (by decide) (by decide)
  obtain ⟨value, htexts, hval⟩ := hvalue ⟨"auto", "C"⟩ (by decide)
  exact ⟨ops, cell, label, value, hrun, hrects, htexts,
    (hlabel (by decide) (by decide)).1, (hlabel (by decide) (by decide)).2,
    (hval (by decide) (by decide)).1, (hval (by decide) (by decide)).2⟩

/-! ## C15: cells stay inside the bar -/

theorem rectangles_flatMap {α : Type} (xs : List α) (f : α → List Cmd) :
    rectangles (xs.flatMap f) = xs.flatMap fun x => rectangles (f x) := by
  induction xs with
  | nil => rfl
  | cons x rest ih => simp [List.flatMap_cons, rectangles_append, ih]

/-- Every rectangle among the cells of the bar is the rectangle of a cell whose
three indices are in range. -/
theorem mem_rectangles_barOps (st : State) (cell : Rect)
    (h : cell ∈ rectangles (barOps st)) :
    ∃ s p r sec pan, st.bar.Sections[s]? = some sec ∧ sec.Panels[p]? = some pan
      ∧ r < pan.Labels.length ∧ cell = cellRect st sec pan s p r := by
  unfold barOps at h
  rw [rectangles_flatMap] at h
  obtain ⟨⟨s, sec⟩, hsmem, h⟩ := List.mem_flatMap.1 h
  simp only [] at h
  rw [rectangles_flatMap] at h
  obtain ⟨⟨p, pan⟩, hpmem, h⟩ := List.mem_flatMap.1 h
  simp only [] at h
  rw [rectangles_flatMap] at h
  obtain ⟨⟨r, lab⟩, hrmem, h⟩ := List.mem_flatMap.1 h
  simp only [rectangles_cellOps] at h
  have hs : st.bar.Sections[s]? = some sec := List.mk_mem_enum_iff_getElem?.1 hsmem
  have hp : sec.Panels[p]? = some pan := List.mk_mem_enum_iff_getElem?.1 hpmem
  have hr : pan.Labels[r]? = some lab := List.mk_mem_enum_iff_getElem?.1 hrmem
  refine ⟨s, p, r, sec, pan, hs, hp, lt_of_getElem_some hr, ?_⟩
  simpa using h

theorem sectionY_nonneg (bar : Bar) (hheights : ∀ x ∈ bar.Sections, 0 ≤ x.Height)
    (s : Nat) (hs : s ≤ bar.Sections.length) : 0 ≤ sectionY bar s := by
  induction s with
  | zero => simp [sectionY]
  | succ n ih =>
    have hn : n < bar.Sections.length := hs
    obtain ⟨mid, hmid⟩ := getElem_some_of_lt hn
    have hnonneg : 0 ≤ mid.Height := hheights mid (List.mem_iff_getElem?.2 ⟨n, hmid⟩)
    rw [sectionY_succ bar n mid hmid]
    have hprev := ih (Nat.le_of_lt hn)
    omega

theorem sectionY_length (bar : Bar) :
    sectionY bar bar.Sections.length = (bar.Sections.map fun sec => sec.Height).sum := by
  simp [sectionY]

/-- Under a decoded image, a cell of a bar whose non-negative section heights add
up to at most the height of the bar lies inside the bar region of the canvas. -/
theorem cellRect_inside (bar : Bar) (img : Image)
    (hheights : ∀ x ∈ bar.Sections, 0 ≤ x.Height)
    (hsum : (bar.Sections.map fun sec => sec.Height).sum ≤ bar.Height)
    (s p r : Nat) (sec : Section) (pan : Panel)
    (hs : bar.Sections[s]? = some sec) (hp : sec.Panels[p]? = some pan)
    (hr : r < pan.Labels.length) :
    0 ≤ (cellRect (readImgInfo (loaded bar) img) sec pan s p r).x
    ∧ (cellRect (readImgInfo (loaded bar) img) sec pan s p r).x
        + (cellRect (readImgInfo (loaded bar) img) sec pan s p r).width ≤ img.Dx
    ∧ (img.Dy : Int) ≤ (cellRect (readImgInfo (loaded bar) img) sec pan s p r).y
    ∧ (cellRect (readImgInfo (loaded bar) img) sec pan s p r).y
        + (cellRect (readImgInfo (loaded bar) img) sec pan s p r).height
        ≤ img.Dy + bar.Height := by
  have hslt : s < bar.Sections.length := lt_of_getElem_some hs
  have hplt : p < sec.Panels.length := lt_of_getElem_some hp
  have hN : 0 < sec.Panels.length := Nat.lt_of_le_of_lt (Nat.zero_le p) hplt
  have hL : 0 < pan.Labels.length := Nat.lt_of_le_of_lt (Nat.zero_le r) hr
  have hH : 0 ≤ sec.Height := hheights sec (List.mem_iff_getElem?.2 ⟨s, hs⟩)
  obtain ⟨-, hw0, hwle, -⟩ :=
    tdiv_count_bounds img.Dx sec.Panels.length (Int.ofNat_nonneg _) hN
  obtain ⟨-, hh0, hhle, -⟩ := tdiv_count_bounds sec.Height pan.Labels.length hH hL
  have hcol := step_le_step (Int.tdiv img.Dx sec.Panels.length) p sec.Panels.length hw0 hplt
  have hrow := step_le_step (sec.Height.tdiv pan.Labels.length) r pan.Labels.length hh0 hr
  have hx0 : 0 ≤ Int.tdiv img.Dx sec.Panels.length * p := mul_nonneg hw0 (Int.ofNat_nonneg p)
  have hy0 : 0 ≤ sec.Height.tdiv pan.Labels.length * r := mul_nonneg hh0 (Int.ofNat_nonneg r)
  have htop := sectionY_nonneg bar hheights s (Nat.le_of_lt hslt)
  have hbottom := sectionY_mono bar hheights s bar.Sections.length sec hs hslt (Nat.le_refl _)
  rw [sectionY_length] at hbottom
  rw [mul_comm] at hwle hhle
  rw [cellRect_readImgInfo]
  refine ⟨hx0, ?_, ?_, ?_⟩
  · show Int.tdiv img.Dx sec.Panels.length * p + Int.tdiv img.Dx sec.Panels.length ≤ img.Dx
    omega
  · show (img.Dy : Int) ≤ img.Dy + sectionY bar s + sec.Height.tdiv pan.Labels.length * r
    omega
  · show (img.Dy : Int) + sectionY bar s + sec.Height.tdiv pan.Labels.length * r
        + sec.Height.tdiv pan.Labels.length ≤ img.Dy + bar.Height
    omega

/-- C15.  For every bar with non-negative section heights that add up to at most
`bar.Height`, under every image, every cell rectangle drawn by `draw` lies inside
the bar region of the canvas: `0 ≤ x`, `x + width ≤ imgWidth`, `imgHeight ≤ y` and
`y + height ≤ imgHeight + bar.Height`.  And there is a bar whose section heights
add up to more than `bar.Height` in which a cell drawn by `draw` extends below the
bottom of the canvas. -/
theorem cells_inside_bar (fonts : String → Int → Bool) (bar : Bar) (img : Image)
    (dc : Context)
    (hheights : ∀ x ∈ bar.Sections, 0 ≤ x.Height)
    (hsum : (bar.Sections.map fun sec => sec.Height).sum ≤ bar.Height)
    (hfonts : FontsLoad fonts bar) :
    (∃ ops,
      draw fonts (readImgInfo (loaded bar) img) dc = .ok { dc with ops := dc.ops ++ ops }
      ∧ ∀ cell ∈ rectangles ops,
          0 ≤ cell.x ∧ cell.x + cell.width ≤ img.Dx
          ∧ (img.Dy : Int) ≤ cell.y ∧ cell.y + cell.height ≤ img.Dy + bar.Height)
    ∧ (∃ (bar2 : Bar) (img2 : Image) (ops2 : List Cmd),
        (∀ x ∈ bar2.Sections, 0 ≤ x.Height)
        ∧ bar2.Height < (bar2.Sections.map fun sec => sec.Height).sum
        ∧ draw everyFont (readImgInfo (loaded bar2) img2)
              (NewContext img2.Dx (img2.Dy + bar2.Height))
            = .ok { width := img2.Dx, height := img2.Dy + bar2.Height, ops := ops2 }
        ∧ ∃ cell ∈ rectangles ops2, (img2.Dy : Int) + bar2.Height < cell.y + cell.height) := by
  constructor
  · refine ⟨_, draw_ok fonts (readImgInfo (loaded bar) img) dc hfonts, ?_⟩
    intro cell hcell
    rw [rectangles_append] at hcell
    have hmem : cell ∈ rectangles (barOps (readImgInfo (loaded bar) img)) := by
      simpa [rectangles] using hcell
    obtain ⟨s, p, r, sec, pan, hs, hp, hr, hcellEq⟩ :=
      mem_rectangles_barOps (readImgInfo (loaded bar) img) cell hmem
    rw [hcellEq]
    exact cellRect_inside bar img hheights hsum s p r sec pan hs hp hr
  · refine ⟨shortBar, demoImage,
      [.SetHexColor "#000000", .Clear] ++ barOps (readImgInfo (loaded shortBar) demoImage),
      by decide, by decide, ?_, ⟨0, 530, 640, 50⟩, by decide, by decide⟩
    rw [draw_ok everyFont _ _ (everyFont_loads shortBar)]
    rfl

/-- Witness for `cells_inside_bar`: every cell of the sample bar, 100 high with one
section of height 100, lies inside the bar region under a 640 by 480 image. -/
theorem cells_inside_bar_witness :
    ∃ ops,
      draw everyFont (readImgInfo (loaded demoBar) demoImage) (NewContext 640 580)
          = .ok { NewContext 640 580 with ops := (NewContext 640 580).ops ++ ops }
      ∧ ∀ cell ∈ rectangles ops,
          0 ≤ cell.x ∧ cell.x + cell.width ≤ (640 : Int)
          ∧ (480 : Int) ≤ cell.y ∧ cell.y + cell.height ≤ (480 : Int) + 100 :=
  (cells_inside_bar everyFont demoBar demoImage (NewContext 640 580) (by decide) (by decide)
    (everyFont_loads demoBar)).1

/-! ## The program on 64-bit integers: closed forms -/

theorem wrap64_of_fits (n : Int) (h1 : -2 ^ 63 ≤ n) (h2 : n < 2 ^ 63) : wrap64 n = n := by
  unfold wrap64
  omega

theorem wrap64_add_left (a b : Int) : wrap64 (wrap64 a + b) = wrap64 (a + b) := by
  unfold wrap64
  omega

theorem float64_of_small (n : Int) (h1 : -2 ^ 53 ≤ n) (h2 : n ≤ 2 ^ 53) : float64 n = n := by
  unfold float64
  have hsmall : n.natAbs ≤ 2 ^ 53 := by omega
  rw [if_pos hsmall]

theorem float64_zero : float64 0 = 0 := by decide

theorem float64_one : float64 1 = 1 := by decide

/-- The loop of lines 109–112 on 64-bit integers adds up the heights of the
sections before `s` and keeps the low 64 bits. -/
theorem sectionY64_loop (bar : Bar) (s : Nat) (hs : s ≤ bar.Sections.length) :
    forLoop s (fun i y => do
      let sec ← index bar.Sections i
      pure (wrap64 (y + sec.Height))) (0 : Int) = .ok (sectionY64 bar s) := by
  induction s with
  | zero =>
    rw [forLoop_zero]
    have h0 : sectionY64 bar 0 = 0 := by
      simp only [sectionY64, sectionY, List.take_zero, List.map_nil, List.sum_nil]
      decide
    rw [h0]
  | succ n ih =>
    have hn : n < bar.Sections.length := hs
    obtain ⟨sec, hsec⟩ : ∃ sec, bar.Sections[n]? = some sec :=
      ⟨_, List.getElem?_eq_getElem hn⟩
    rw [forLoop_succ, ih (Nat.le_of_lt hn)]
    simp only [index_eq_ok hsec, bind, Except.bind, pure, Except.pure]
    rw [sectionY64, sectionY64, sectionY_succ bar n sec hsec, wrap64_add_left]

/-- With its three indices in range, `drawBox64` either appends the primitives of
the cell or stops because the font does not load. -/
theorem drawBox64_eq (fonts : String → Int → Bool) (st : State) (dc : Context) (s p r : Nat)
    (sec : Section) (pan : Panel) (lab : Label)
    (hs : st.bar.Sections[s]? = some sec) (hp : sec.Panels[p]? = some pan)
    (hr : pan.Labels[r]? = some lab) :
    drawBox64 fonts st dc s p r =
      if fonts (fontFolder ++ sec.Font.Name) (float64 sec.Font.Size) then
        .ok { dc with ops := dc.ops ++ cellOps64 st sec pan lab s p r }
      else .error .fontLoadFailed := by
  have hslt : s < st.bar.Sections.length := lt_of_getElem_some hs
  have hplt : p < sec.Panels.length := lt_of_getElem_some hp
  have hrlt : r < pan.Labels.length := lt_of_getElem_some hr
  have hn : (sec.Panels.length : Int) ≠ 0 := by omega
  have hl : (pan.Labels.length : Int) ≠ 0 := by omega
  simp only [drawBox64]
  rw [sectionY64_loop st.bar s (Nat.le_of_lt hslt)]
  simp only [index_eq_ok hs, index_eq_ok hp, index_eq_ok hr, intDiv, hn, hl, if_false,
    bind, Except.bind, pure, Except.pure]
  rcases hval : pan.Values[r]? with _ | val
  · have hle : ¬ pan.Values.length > r := by
      intro h
      rw [List.getElem?_eq_getElem h] at hval
      exact Option.noConfusion hval
    cases hf : fonts (fontFolder ++ sec.Font.Name) (float64 sec.Font.Size)
    · simp only [hle, if_false, Bool.not_false, if_true]
      split_ifs <;> first | rfl | contradiction
    · simp only [hle, if_false, Bool.not_true, if_true, cellOps64, hval, labelPlacement,
        Context.emit, List.append_assoc, List.singleton_append, List.cons_append,
        List.nil_append, List.append_nil]
      split_ifs <;> first | rfl | contradiction
  · have hlt : pan.Values.length > r := lt_of_getElem_some hval
    cases hf : fonts (fontFolder ++ sec.Font.Name) (float64 sec.Font.Size)
    · simp only [hlt, if_true, index_eq_ok hval, Bool.not_false]
      split_ifs <;> first | rfl | contradiction
    · simp only [hlt, if_true, index_eq_ok hval, Bool.not_true, if_false, cellOps64, hval,
        labelPlacement, valuePlacement64,
        Context.emit, List.append_assoc, List.singleton_append, List.cons_append,
        List.nil_append, List.append_nil]
      split_ifs <;> first | rfl | contradiction

theorem drawBox64_ok (fonts : String → Int → Bool) (st : State) (dc : Context) (s p r : Nat)
    (sec : Section) (pan : Panel) (lab : Label)
    (hs : st.bar.Sections[s]? = some sec) (hp : sec.Panels[p]? = some pan)
    (hr : pan.Labels[r]? = some lab)
    (hfont : fonts (fontFolder ++ sec.Font.Name) (float64 sec.Font.Size) = true) :
    drawBox64 fonts st dc s p r
      = .ok { dc with ops := dc.ops ++ cellOps64 st sec pan lab s p r } := by
  rw [drawBox64_eq fonts st dc s p r sec pan lab hs hp hr, hfont]
  rfl

theorem rectangles_cellOps64 (st : State) (sec : Section) (pan : Panel) (lab : Label)
    (s p r : Nat) :
    rectangles (cellOps64 st sec pan lab s p r) =
      [cellRect64 st sec pan s p r, cellRect64 st sec pan s p r] := by
  unfold cellOps64 cellRect64
  cases pan.Values[r]? <;> simp [rectangles]

/-- When every font loads, `draw64` completes: it clears the surface to the colour
of the bar and appends the primitives of every cell in order. -/
theorem draw64_ok (fonts : String → Int → Bool) (st : State) (dc : Context)
    (hfonts : FontsLoad64 fonts st.bar) :
    draw64 fonts st dc
      = .ok { dc with
          ops := dc.ops ++ ([.SetHexColor st.bar.Color, .Clear] ++ barOps64 st) } := by
  unfold draw64
  have hloop := forLoop_append st.bar.Sections
    (fun i dc => do
      let sec ← index st.bar.Sections i
      forLoop sec.Panels.length
        (fun j dc => do
          let pan ← index sec.Panels j
          forLoop pan.Labels.length (fun k dc => drawBox64 fonts st dc i j k) dc)
        dc)
    (fun s sec => sec.Panels.enum.flatMap fun (p, pan) =>
      pan.Labels.enum.flatMap fun (r, lab) => cellOps64 st sec pan lab s p r)
    (by
      intro i sec hsec dc1
      have hfont : fonts (fontFolder ++ sec.Font.Name) (float64 sec.Font.Size) = true :=
        hfonts sec (List.mem_iff_getElem?.2 ⟨i, hsec⟩)
      simp only [index_eq_ok hsec, bind, Except.bind]
      exact forLoop_append sec.Panels _
        (fun p pan => pan.Labels.enum.flatMap fun (r, lab) => cellOps64 st sec pan lab i p r)
        (by
          intro j pan hpan dc2
          simp only [index_eq_ok hpan]
          exact forLoop_append pan.Labels _ (fun r lab => cellOps64 st sec pan lab i j r)
            (by
              intro k lab hlab dc3
              exact drawBox64_ok fonts st dc3 i j k sec pan lab hsec hpan hlab hfont)
            dc2)
        dc1)
  rw [hloop]
  simp [Context.emit, barOps64]

theorem everyFont_loads64 (bar : Bar) : FontsLoad64 everyFont bar := by
  intro sec _
  rfl

/-- Go's quotient of `a` by a count, stepped `i` times with `i` below the count,
stays within the magnitude of `a`. -/
theorem tdiv_step_bounds (a B : Int) (n i : Nat) (hi : i < n) (h1 : -B ≤ a) (h2 : a ≤ B) :
    (-B ≤ a.tdiv n ∧ a.tdiv n ≤ B) ∧ (-B ≤ a.tdiv n * i ∧ a.tdiv n * i ≤ B) := by
  have hn : 0 < n := Nat.lt_of_le_of_lt (Nat.zero_le i) hi
  rcases le_total 0 a with ha | ha
  · obtain ⟨-, hq0, hqle, -⟩ := tdiv_count_bounds a n ha hn
    have hstep := step_le_step (a.tdiv n) i n hq0 hi
    have hprod : 0 ≤ a.tdiv n * i := mul_nonneg hq0 (Int.ofNat_nonneg i)
    rw [mul_comm] at hqle
    refine ⟨⟨by omega, by omega⟩, by omega, by omega⟩
  · have hneg : 0 ≤ -a := by omega
    obtain ⟨-, hq0, hqle, -⟩ := tdiv_count_bounds (-a) n hneg hn
    have hstep := step_le_step ((-a).tdiv n) i n hq0 hi
    have hprod : 0 ≤ (-a).tdiv n * i := mul_nonneg hq0 (Int.ofNat_nonneg i)
    rw [mul_comm] at hqle
    have hflip : (-a).tdiv n = -(a.tdiv n) := Int.neg_tdiv a n
    rw [hflip] at hq0 hqle hstep hprod
    have hmul : -(a.tdiv n) * (i : Int) = -(a.tdiv n * i) := by ring
    have hmul2 : -(a.tdiv n) * (n : Int) = -(a.tdiv n * n) := by ring
    rw [hmul] at hstep hprod
    rw [hmul2] at hqle hstep
    refine ⟨⟨by omega, by omega⟩, by omega, by omega⟩

/-- On a cell whose quantities are modest, 64-bit integers and `float64` give the
rectangle that the arithmetic over the integers gives. -/
theorem cellRect64_of_modest (st : State) (sec : Section) (pan : Panel) (s p r : Nat)
    (hmodest : Modest st s sec) (hp : p < sec.Panels.length) (hr : r < pan.Labels.length) :
    cellRect64 st sec pan s p r = cellRect st sec pan s p r := by
  obtain ⟨⟨hw0, hw1⟩, ⟨hx0, hx1⟩, ⟨hy0, hy1⟩, ⟨hh0, hh1⟩, ⟨hs0, hs1⟩⟩ := hmodest
  obtain ⟨⟨hcw0, hcw1⟩, hcp0, hcp1⟩ :=
    tdiv_step_bounds st.imgWidth (2 ^ 50) sec.Panels.length p hp (by omega) hw1
  obtain ⟨⟨hrh0, hrh1⟩, hrr0, hrr1⟩ :=
    tdiv_step_bounds sec.Height (2 ^ 50) pan.Labels.length r hr hh0 hh1
  have e1 : wrap64 (st.imgWidth.tdiv sec.Panels.length * p)
      = st.imgWidth.tdiv sec.Panels.length * p := wrap64_of_fits _ (by omega) (by omega)
  have e2 : wrap64 (sec.Height.tdiv pan.Labels.length * r)
      = sec.Height.tdiv pan.Labels.length * r := wrap64_of_fits _ (by omega) (by omega)
  have e3 : sectionY64 st.bar s = sectionY st.bar s := wrap64_of_fits _ (by omega) (by omega)
  have e4 : wrap64 (sectionY st.bar s + sec.Height.tdiv pan.Labels.length * r)
      = sectionY st.bar s + sec.Height.tdiv pan.Labels.length * r :=
    wrap64_of_fits _ (by omega) (by omega)
  have e5 : wrap64 (st.barXPosition + st.imgWidth.tdiv sec.Panels.length * p)
      = st.barXPosition + st.imgWidth.tdiv sec.Panels.length * p :=
    wrap64_of_fits _ (by omega) (by omega)
  have e6 : wrap64 (st.barYPosition
        + (sectionY st.bar s + sec.Height.tdiv pan.Labels.length * r))
      = st.barYPosition + (sectionY st.bar s + sec.Height.tdiv pan.Labels.length * r) :=
    wrap64_of_fits _ (by omega) (by omega)
  simp only [cellRect64, cellRect, e1, e2, e3, e4, e5, e6]
  rw [float64_of_small _ (by omega) (by omega), float64_of_small _ (by omega) (by omega),
    float64_of_small _ (by omega) (by omega), float64_of_small _ (by omega) (by omega)]

/-- Under a decoded image the state of the 64-bit program has the bar at
`(0, imgHeight)`. -/
theorem cellRect_readImgInfo64 (bar : Bar) (img : Image) (sec : Section) (pan : Panel)
    (s p r : Nat) :
    cellRect (readImgInfo64 (loaded bar) img) sec pan s p r =
      { x := Int.tdiv img.Dx sec.Panels.length * p
        y := img.Dy + sectionY bar s + Int.tdiv sec.Height pan.Labels.length * r
        width := Int.tdiv img.Dx sec.Panels.length
        height := Int.tdiv sec.Height pan.Labels.length } := by
  simp [cellRect, readImgInfo64, loaded, add_assoc]

/-! ## C1: the cell rectangle -/

/-- C1, as amended.  For every bar, every image and every index triple in range,
provided the image size, the height of the section and the sum of the heights
before it are at most `2 ^ 50` in magnitude (so that no sum wraps at 64 bits and
`float64` is exact), the rectangle that `drawBox` fills and strokes has
`x = (imgWidth / panelCount) * p`, `width = imgWidth / panelCount`,
`height = Height / labelCount` and
`y = imgHeight + (heights of the sections before s) + (Height / labelCount) * r`,
where `/` is Go's integer division, which truncates toward zero.  When the height
of the section is not negative this is the cell of the layout rules computed with
floor divisions. -/
theorem drawBox_cell_rectangle (fonts : String → Int → Bool) (bar : Bar) (img : Image)
    (dc : Context) (s p r : Nat) (sec : Section) (pan : Panel)
    (hs : bar.Sections[s]? = some sec) (hp : sec.Panels[p]? = some pan)
    (hr : r < pan.Labels.length)
    (hfont : fonts (fontFolder ++ sec.Font.Name) (float64 sec.Font.Size) = true)
    (hmodest : Modest (readImgInfo64 (loaded bar) img) s sec) :
    ∃ ops, drawBox64 fonts (readImgInfo64 (loaded bar) img) dc s p r
          = .ok { dc with ops := dc.ops ++ ops }
      ∧ rectangles ops =
          [ { x := Int.tdiv img.Dx sec.Panels.length * p
              y := img.Dy + sectionY bar s + Int.tdiv sec.Height pan.Labels.length * r
              width := Int.tdiv img.Dx sec.Panels.length
              height := Int.tdiv sec.Height pan.Labels.length },
            { x := Int.tdiv img.Dx sec.Panels.length * p
              y := img.Dy + sectionY bar s + Int.tdiv sec.Height pan.Labels.length * r
              width := Int.tdiv img.Dx sec.Panels.length
              height := Int.tdiv sec.Height pan.Labels.length } ]
      ∧ (0 ≤ sec.Height →
          rectangles ops =
            [ floorCell img.Dx img.Dy bar sec pan s p r,
              floorCell img.Dx img.Dy bar sec pan s p r ]) := by
  obtain ⟨lab, hlab⟩ := getElem_some_of_lt hr
  have hrun := drawBox64_ok fonts (readImgInfo64 (loaded bar) img) dc s p r sec pan lab hs hp
    hlab hfont
  have hrects := rectangles_cellOps64 (readImgInfo64 (loaded bar) img) sec pan lab s p r
  rw [cellRect64_of_modest _ sec pan s p r hmodest (lt_of_getElem_some hp) hr,
    cellRect_readImgInfo64] at hrects
  refine ⟨_, hrun, hrects, ?_⟩
  intro hH
  have hw : Int.fdiv img.Dx sec.Panels.length = Int.tdiv img.Dx sec.Panels.length :=
    Int.fdiv_eq_tdiv (Int.ofNat_nonneg _) (Int.ofNat_nonneg _)
  have hh : Int.fdiv sec.Height pan.Labels.length = Int.tdiv sec.Height pan.Labels.length :=
    Int.fdiv_eq_tdiv hH (Int.ofNat_nonneg _)
  refine Eq.trans hrects ?_
  simp only [floorCell, hw, hh]

/-- Witness for `drawBox_cell_rectangle`: row 1 of the sample bar under a 640 by
480 image is the rectangle `(0, 530, 640, 50)`. -/
theorem drawBox_cell_rectangle_witness :
    ∃ ops, drawBox64 everyFont (readImgInfo64 (loaded demoBar) demoImage) (NewContext 640 580)
            0 0 1
          = .ok { NewContext 640 580 with ops := (NewContext 640 580).ops ++ ops }
      ∧ rectangles ops = [⟨0, 530, 640, 50⟩, ⟨0, 530, 640, 50⟩] := by
  obtain ⟨ops, hrun, hrects, -⟩ :=
    drawBox_cell_rectangle everyFont demoBar demoImage (NewContext 640 580) 0 0 1
      demoSection demoPanel (by decide) (by decide) (by decide) (by decide) (by decide)
  exact ⟨ops, hrun, by rw [hrects]; decide⟩

/-- C1, counterexample.  To "all divisions being floor divisions": for a section of
height -7 with two rows, `drawBox` draws row 1 with height -3 at y = 7, while floor
division gives height -4 at y = 6.  To "for every bar": below two sections of
height `2 ^ 63 - 1` the section offset wraps to -2, and `drawBox` draws the cell at
y = 478, while the formula gives y = 18446744073709552094. -/
theorem drawBox_cell_not_floor :
    (rectangles (issued (drawBox64 everyFont (readImgInfo64 (loaded sunkBar) ⟨10, 10⟩)
        (NewContext 10 10) 0 0 1))
      = [⟨0, 7, 10, -3⟩, ⟨0, 7, 10, -3⟩]
    ∧ floorCell 10 10 sunkBar sunkSection demoPanel 0 0 1 = ⟨0, 6, 10, -4⟩
    ∧ rectangles (issued (drawBox64 everyFont (readImgInfo64 (loaded sunkBar) ⟨10, 10⟩)
        (NewContext 10 10) 0 0 1))
      ≠ [ floorCell 10 10 sunkBar sunkSection demoPanel 0 0 1,
          floorCell 10 10 sunkBar sunkSection demoPanel 0 0 1 ])
    ∧ (rectangles (issued (drawBox64 everyFont (readImgInfo64 (loaded vastBar) demoImage)
        (NewContext 640 580) 2 0 0))
      = [⟨0, 478, 640, 50⟩, ⟨0, 478, 640, 50⟩]
    ∧ floorCell 640 480 vastBar demoSection demoPanel 2 0 0
      = ⟨0, 18446744073709552094, 640, 50⟩) := by
  decide

/-! ## C4: the canvas -/

/-- The first rectangle among the cells of the bar on 64-bit integers is that of
cell `(0, 0, 0)`. -/
theorem rectangles_barOps64_head (st : State) (sec : Section) (pan : Panel) (lab : Label)
    (hsec : st.bar.Sections[0]? = some sec) (hpan : sec.Panels[0]? = some pan)
    (hlab : pan.Labels[0]? = some lab) :
    (rectangles (barOps64 st)).head? = some (cellRect64 st sec pan 0 0 0) := by
  obtain ⟨rest1, h1⟩ := enum_flatMap_head st.bar.Sections sec hsec
    (fun (s, sec) => sec.Panels.enum.flatMap fun (p, pan) =>
      pan.Labels.enum.flatMap fun (r, lab) => cellOps64 st sec pan lab s p r)
  obtain ⟨rest2, h2⟩ := enum_flatMap_head sec.Panels pan hpan
    (fun (p, pan) => pan.Labels.enum.flatMap fun (r, lab) => cellOps64 st sec pan lab 0 p r)
  obtain ⟨rest3, h3⟩ := enum_flatMap_head pan.Labels lab hlab
    (fun (r, lab) => cellOps64 st sec pan lab 0 0 r)
  have hops : barOps64 st = cellOps64 st sec pan lab 0 0 0 ++ (rest3 ++ (rest2 ++ rest1)) := by
    unfold barOps64
    rw [h1]
    simp only []
    rw [h2]
    simp only []
    rw [h3, List.append_assoc, List.append_assoc]
  rw [hops, rectangles_append, rectangles_cellOps64]
  rfl

/-- The first cell of the bar under a decoded JPEG starts at `(0, imgHeight)`. -/
theorem cellRect64_origin (bar : Bar) (img : Image) (sec : Section) (pan : Panel)
    (hDy : img.Dy ≤ 65535) :
    cellRect64 (readImgInfo64 (loaded bar) img) sec pan 0 0 0 =
      { x := 0, y := img.Dy, width := float64 (Int.tdiv img.Dx sec.Panels.length),
        height := float64 (Int.tdiv sec.Height pan.Labels.length) } := by
  have hy : sectionY64 bar 0 = 0 := by
    simp only [sectionY64, sectionY, List.take_zero, List.map_nil, List.sum_nil]
    decide
  have hw0 : wrap64 0 = 0 := by decide
  have hdy : wrap64 (img.Dy : Int) = img.Dy := wrap64_of_fits _ (by omega) (by omega)
  have hfy : float64 (img.Dy : Int) = img.Dy := float64_of_small _ (by omega) (by omega)
  simp only [cellRect64, readImgInfo64, loaded, hy, Nat.cast_zero, mul_zero, add_zero, hw0,
    hdy, hfy, float64_zero]

/-- C4, as amended.  For every bar and source image with `imgHeight + bar.Height`
not negative and a surface that `image.NewRGBA` accepts (four bytes per pixel
times both extents below `2 ^ 63`), the canvas has size
`(imgWidth, imgHeight + bar.Height)` whatever the section heights are; the source
image is drawn at `(0, 0)` after the bar has been rendered; and the first cell of
the bar, section 0, panel 0, row 0, has its origin at `(0, imgHeight)`. -/
theorem main_canvas (fonts : String → Int → Bool) (bar : Bar) (img : Image)
    (hfonts : FontsLoad64 fonts bar)
    (hjpeg : img.Dx ≤ 65535 ∧ img.Dy ≤ 65535)
    (h0 : 0 ≤ (img.Dy : Int) + bar.Height)
    (hfit : 4 * (img.Dx : Int) * (img.Dy + bar.Height) < 2 ^ 63
      ∧ (img.Dy : Int) + bar.Height < 2 ^ 63) :
    ∃ rendered,
      draw64 fonts (readImgInfo64 (loaded bar) img)
            { width := img.Dx, height := img.Dy + bar.Height, ops := [] }
          = .ok { width := img.Dx, height := img.Dy + bar.Height, ops := rendered }
      ∧ main64 fonts bar img
          = .ok { width := img.Dx, height := img.Dy + bar.Height,
                  ops := rendered ++ [.DrawImage img 0 0] }
      ∧ (∀ sec pan, bar.Sections[0]? = some sec → sec.Panels[0]? = some pan →
          0 < pan.Labels.length →
          ∃ w h, ((rectangles rendered).head? = some ⟨0, img.Dy, w, h⟩
            ∧ ∀ dc, ∃ ops, drawBox64 fonts (readImgInfo64 (loaded bar) img) dc 0 0 0
                  = .ok { dc with ops := dc.ops ++ ops }
                ∧ rectangles ops = [⟨0, img.Dy, w, h⟩, ⟨0, img.Dy, w, h⟩])) := by
  obtain ⟨hDx, hDy⟩ := hjpeg
  obtain ⟨hbytes, hrows⟩ := hfit
  have htotal : wrap64 ((img.Dy : Int) + bar.Height) = img.Dy + bar.Height :=
    wrap64_of_fits _ (by omega) hrows
  have habs : (((img.Dy : Int) + bar.Height).natAbs : Int) = img.Dy + bar.Height :=
    Int.natAbs_of_nonneg h0
  have hhuge : hugeSurface (img.Dx : Int) ((img.Dy : Int) + bar.Height) = false := by
    have h1 : ¬ (2 ^ 62 ≤ (img.Dx : Int).natAbs) := by
      rw [Int.natAbs_ofNat]
      omega
    have h2 : ¬ (2 ^ 63 ≤ ((img.Dy : Int) + bar.Height).natAbs) := by
      intro hbig
      have hcast : ((2 ^ 63 : Nat) : Int) ≤ (((img.Dy : Int) + bar.Height).natAbs : Int) := by
        exact_mod_cast hbig
      rw [habs] at hcast
      omega
    have h3 : ¬ (2 ^ 63 ≤ 4 * (img.Dx : Int).natAbs * ((img.Dy : Int) + bar.Height).natAbs) := by
      intro hbig
      have hcast : ((2 ^ 63 : Nat) : Int)
          ≤ ((4 * (img.Dx : Int).natAbs * ((img.Dy : Int) + bar.Height).natAbs : Nat) : Int) := by
        exact_mod_cast hbig
      rw [Int.natAbs_ofNat] at hcast
      push_cast at hcast
      rw [abs_of_nonneg h0] at hcast
      omega
    unfold hugeSurface
    rw [decide_eq_false h1, decide_eq_false h2, decide_eq_false h3]
    rfl
  have hctx : NewContext (img.Dx : Int) ((img.Dy : Int) + bar.Height)
      = { width := img.Dx, height := img.Dy + bar.Height, ops := [] } := by
    simp only [NewContext, Int.natAbs_ofNat, habs]
  have hdraw := draw64_ok fonts (readImgInfo64 (loaded bar) img)
    { width := img.Dx, height := img.Dy + bar.Height, ops := [] } hfonts
  refine ⟨[.SetHexColor bar.Color, .Clear] ++ barOps64 (readImgInfo64 (loaded bar) img),
    ?_, ?_, ?_⟩
  · rw [hdraw]; rfl
  · have hw : (readImgInfo64 (loaded bar) img).imgWidth = img.Dx := rfl
    have hh : (readImgInfo64 (loaded bar) img).totalHeight = img.Dy + bar.Height := htotal
    have him : (readImgInfo64 (loaded bar) img).imageObject = img := rfl
    simp only [main64, hw, hh, him, hhuge, hctx, hdraw, bind, Except.bind, pure, Except.pure,
      Bool.false_eq_true, if_false]
    rfl
  · intro sec pan hsec hpan hlab
    obtain ⟨lab, hlabel⟩ := getElem_some_of_lt hlab
    have hcell := cellRect64_origin bar img sec pan hDy
    refine ⟨float64 (Int.tdiv img.Dx sec.Panels.length),
      float64 (Int.tdiv sec.Height pan.Labels.length), ?_, ?_⟩
    · have hhead := rectangles_barOps64_head (readImgInfo64 (loaded bar) img) sec pan lab hsec
        hpan hlabel
      rw [hcell] at hhead
      rw [rectangles_append]
      exact hhead
    · intro dc
      refine ⟨_, drawBox64_ok fonts (readImgInfo64 (loaded bar) img) dc 0 0 0 sec pan lab hsec
        hpan hlabel (hfonts sec (List.mem_iff_getElem?.2 ⟨0, hsec⟩)), ?_⟩
      rw [rectangles_cellOps64, hcell]

/-- Witness for `main_canvas`: the sample bar under a 640 by 480 image gives a
640 by 580 canvas whose last primitive draws the image at the origin. -/
theorem main_canvas_witness :
    ∃ rendered,
      main64 everyFont demoBar demoImage
          = .ok { width := 640, height := 580,
                  ops := rendered ++ [.DrawImage demoImage 0 0] }
      ∧ (rectangles rendered).head? = some ⟨0, 480, 640, 50⟩ := by
  obtain ⟨rendered, -, hmain, hcell⟩ :=
    main_canvas everyFont demoBar demoImage (everyFont_loads64 demoBar) (by decide)
      (by decide) (by decide)
  obtain ⟨w, h, hhead, hbox⟩ := hcell demoSection demoPanel (by decide) (by decide) (by decide)
  obtain ⟨ops, hrun, hrects⟩ := hbox (NewContext 640 580)
  have hconcrete : rectangles (issued (drawBox64 everyFont
      (readImgInfo64 (loaded demoBar) demoImage) (NewContext 640 580) 0 0 0))
        = [⟨0, 480, 640, 50⟩, ⟨0, 480, 640, 50⟩] := by decide
  rw [hrun] at hconcrete
  simp only [issued, NewContext, List.nil_append] at hconcrete
  rw [hrects] at hconcrete
  have hw : w = 640 := by simpa using congrArg (fun l => (l.map Rect.width).head?) hconcrete
  have hh : h = 50 := by simpa using congrArg (fun l => (l.map Rect.height).head?) hconcrete
  subst hw hh
  exact ⟨rendered, hmain, hhead⟩

/-- C4, counterexample to "for every bar the canvas has size
`(imgWidth, imgHeight + bar.Height)`": for a bar of height -20 under a 10 by 10
image `gg.NewContext(10, -10)` gives a surface 10 wide and 10 high, not -10. -/
theorem canvas_height_not_sum :
    main64 everyFont dipBar ⟨10, 10⟩
        = .ok { width := 10, height := 10,
                ops := [.SetHexColor "#000000", .Clear, .DrawImage ⟨10, 10⟩ 0 0] }
    ∧ (10 : Int) + dipBar.Height = -10 := by
  decide

/-! ## C10: cells do not overlap -/

/-- The rectangles among the cells of the bar on 64-bit integers are exactly the
rectangles of the cells whose three indices are in range. -/
theorem mem_rectangles_barOps64 (st : State) (cell : Rect) :
    cell ∈ rectangles (barOps64 st) ↔
      ∃ s p r sec pan, st.bar.Sections[s]? = some sec ∧ sec.Panels[p]? = some pan
        ∧ r < pan.Labels.length ∧ cell = cellRect64 st sec pan s p r := by
  constructor
  · intro h
    unfold barOps64 at h
    rw [rectangles_flatMap] at h
    obtain ⟨⟨s, sec⟩, hsmem, h⟩ := List.mem_flatMap.1 h
    simp only [] at h
    rw [rectangles_flatMap] at h
    obtain ⟨⟨p, pan⟩, hpmem, h⟩ := List.mem_flatMap.1 h
    simp only [] at h
    rw [rectangles_flatMap] at h
    obtain ⟨⟨r, lab⟩, hrmem, h⟩ := List.mem_flatMap.1 h
    simp only [rectangles_cellOps64] at h
    have hs : st.bar.Sections[s]? = some sec := List.mk_mem_enum_iff_getElem?.1 hsmem
    have hp : sec.Panels[p]? = some pan := List.mk_mem_enum_iff_getElem?.1 hpmem
    have hr : pan.Labels[r]? = some lab := List.mk_mem_enum_iff_getElem?.1 hrmem
    refine ⟨s, p, r, sec, pan, hs, hp, lt_of_getElem_some hr, ?_⟩
    simpa using h
  · rintro ⟨s, p, r, sec, pan, hs, hp, hr, hcell⟩
    obtain ⟨lab, hlab⟩ := getElem_some_of_lt hr
    unfold barOps64
    rw [rectangles_flatMap]
    refine List.mem_flatMap.2 ⟨(s, sec), List.mk_mem_enum_iff_getElem?.2 hs, ?_⟩
    simp only []
    rw [rectangles_flatMap]
    refine List.mem_flatMap.2 ⟨(p, pan), List.mk_mem_enum_iff_getElem?.2 hp, ?_⟩
    simp only []
    rw [rectangles_flatMap]
    refine List.mem_flatMap.2 ⟨(r, lab), List.mk_mem_enum_iff_getElem?.2 hlab, ?_⟩
    simp only [rectangles_cellOps64, hcell]
    exact List.mem_cons_self _ _

/-- C10, as amended.  For every bar with non-negative section heights, provided the
image width, the position of the bar, every section height and every section
offset are at most `2 ^ 50` in magnitude (so that no sum wraps at 64 bits), `draw`
completes when the fonts load, the rectangles it draws are exactly the cell
rectangles of the index triples in range, and the cell rectangles of two distinct
triples share no pixel: as half-open ranges `[x, x+width) × [y, y+height)` they
have empty intersection. -/
theorem cells_do_not_overlap (fonts : String → Int → Bool) (st : State) (dc : Context)
    (hheights : ∀ x ∈ st.bar.Sections, 0 ≤ x.Height)
    (hfonts : FontsLoad64 fonts st.bar)
    (hmodest : ∀ x ∈ st.bar.Sections.enum, Modest st x.1 x.2) :
    ∃ ops,
      draw64 fonts st dc = .ok { dc with ops := dc.ops ++ ops }
      ∧ (∀ cell, cell ∈ rectangles ops ↔
          ∃ s p r sec pan, st.bar.Sections[s]? = some sec ∧ sec.Panels[p]? = some pan
            ∧ r < pan.Labels.length ∧ cell = cellRect st sec pan s p r)
      ∧ (∀ (s p r s2 p2 r2 : Nat) (sec sec2 : Section) (pan pan2 : Panel),
          st.bar.Sections[s]? = some sec → sec.Panels[p]? = some pan →
          r < pan.Labels.length →
          st.bar.Sections[s2]? = some sec2 → sec2.Panels[p2]? = some pan2 →
          r2 < pan2.Labels.length →
          (s, p, r) ≠ (s2, p2, r2) →
          ∀ a b : Int,
            ¬ ((cellRect st sec pan s p r).covers a b
                ∧ (cellRect st sec2 pan2 s2 p2 r2).covers a b)) := by
  have hsame : ∀ s p r sec pan, st.bar.Sections[s]? = some sec → sec.Panels[p]? = some pan →
      r < pan.Labels.length → cellRect64 st sec pan s p r = cellRect st sec pan s p r := by
    intro s p r sec pan hs hp hr
    exact cellRect64_of_modest st sec pan s p r
      (hmodest (s, sec) (List.mk_mem_enum_iff_getElem?.2 hs)) (lt_of_getElem_some hp) hr
  refine ⟨_, draw64_ok fonts st dc hfonts, ?_, ?_⟩
  · intro cell
    have hclear : rectangles ([Cmd.SetHexColor st.bar.Color, Cmd.Clear] ++ barOps64 st)
        = rectangles (barOps64 st) := by
      rw [rectangles_append]
      rfl
    rw [hclear, mem_rectangles_barOps64]
    constructor
    · rintro ⟨s, p, r, sec, pan, hs, hp, hr, hcell⟩
      exact ⟨s, p, r, sec, pan, hs, hp, hr, by rw [hcell, hsame s p r sec pan hs hp hr]⟩
    · rintro ⟨s, p, r, sec, pan, hs, hp, hr, hcell⟩
      exact ⟨s, p, r, sec, pan, hs, hp, hr, by rw [hcell, hsame s p r sec pan hs hp hr]⟩
  · intro s p r s2 p2 r2 sec sec2 pan pan2 hs hp hr hs2 hp2 hr2 hne a b
    have hw : 0 ≤ st.imgWidth := (hmodest (s, sec) (List.mk_mem_enum_iff_getElem?.2 hs)).1.1
    exact cellRect_disjoint st hheights hw s p r s2 p2 r2 sec sec2 pan pan2 hs hp hr hs2 hp2 hr2
      hne a b

/-- Witness for `cells_do_not_overlap`: in the bar with two sections, row 1 of the
upper section and panel 2 of the lower section are both drawn and share no
pixel. -/
theorem cells_do_not_overlap_witness :
    ∃ ops,
      draw64 everyFont (readImgInfo64 (loaded stackedBar) demoImage) (NewContext 640 680)
          = .ok { NewContext 640 680 with ops := (NewContext 640 680).ops ++ ops }
      ∧ (⟨0, 530, 640, 50⟩ : Rect) ∈ rectangles ops
      ∧ (⟨426, 580, 213, 50⟩ : Rect) ∈ rectangles ops
      ∧ ∀ a b : Int,
          ¬ ((⟨0, 530, 640, 50⟩ : Rect).covers a b ∧ (⟨426, 580, 213, 50⟩ : Rect).covers a b) := by
  obtain ⟨ops, hrun, hcells, hapart⟩ :=
    cells_do_not_overlap everyFont (readImgInfo64 (loaded stackedBar) demoImage)
      (NewContext 640 680) (by decide) (everyFont_loads64 stackedBar) (by decide)
  have h1 : cellRect (readImgInfo64 (loaded stackedBar) demoImage) demoSection demoPanel 0 0 1
      = ⟨0, 530, 640, 50⟩ := by decide
  have h2 : cellRect (readImgInfo64 (loaded stackedBar) demoImage) thirdsSection demoPanel 1 2 0
      = ⟨426, 580, 213, 50⟩ := by decide
  refine ⟨ops, hrun, ?_, ?_, ?_⟩
  · exact (hcells _).2 ⟨0, 0, 1, demoSection, demoPanel, by decide, by decide, by decide,
      h1.symm⟩
  · exact (hcells _).2 ⟨1, 2, 0, thirdsSection, demoPanel, by decide, by decide, by decide,
      h2.symm⟩
  · intro a b
    have hno := hapart 0 0 1 1 2 0 demoSection thirdsSection demoPanel demoPanel
      (by decide) (by decide) (by decide) (by decide) (by decide) (by decide) (by decide) a b
    rw [h1, h2] at hno
    exact hno

/-- C10, counterexample to "for every bar with non-negative section heights": below
two sections of height `2 ^ 63 - 1` the section offset wraps to -2, so `draw` draws
cell `(2, 0, 0)` from y = 478 while cell `(0, 0, 0)` starts at y = 480, and the
pixel `(0, 480)` lies in both. -/
theorem cells_overlap_after_wrap :
    (∀ x ∈ vastBar.Sections, 0 ≤ x.Height)
    ∧ rectangles (issued (drawBox64 everyFont (readImgInfo64 (loaded vastBar) demoImage)
        (NewContext 640 580) 0 0 0))
      = [⟨0, 480, 640, 9223372036854775808⟩, ⟨0, 480, 640, 9223372036854775808⟩]
    ∧ rectangles (issued (drawBox64 everyFont (readImgInfo64 (loaded vastBar) demoImage)
        (NewContext 640 580) 2 0 0))
      = [⟨0, 478, 640, 50⟩, ⟨0, 478, 640, 50⟩]
    ∧ (⟨0, 480, 640, 9223372036854775808⟩ : Rect)
        ∈ rectangles (issued (draw64 everyFont (readImgInfo64 (loaded vastBar) demoImage)
            (NewContext 640 580)))
    ∧ (⟨0, 478, 640, 50⟩ : Rect)
        ∈ rectangles (issued (draw64 everyFont (readImgInfo64 (loaded vastBar) demoImage)
            (NewContext 640 580)))
    ∧ (⟨0, 480, 640, 9223372036854775808⟩ : Rect).covers 0 480
    ∧ (⟨0, 478, 640, 50⟩ : Rect).covers 0 480 := by
  decide

/-! ## C11: the columns the panels cover -/

theorem fills_cellOps_append (st : State) (sec : Section) (pan : Panel) (lab : Label)
    (s p r : Nat) (rest : List Cmd) :
    fills (cellOps st sec pan lab s p r ++ rest)
      = cellRect st sec pan s p r :: fills rest := by
  unfold cellOps cellRect
  cases pan.Values[r]? <;> simp [fills]

theorem fills_rows (st : State) (sec : Section) (pan : Panel) (s p : Nat)
    (rows : List (Nat × Label)) (rest : List Cmd) :
    fills ((rows.flatMap fun (r, lab) => cellOps st sec pan lab s p r) ++ rest)
      = (rows.map fun (r, _) => cellRect st sec pan s p r) ++ fills rest := by
  induction rows with
  | nil => rfl
  | cons row more ih =>
    obtain ⟨r, lab⟩ := row
    simp only [List.flatMap_cons, List.map_cons, List.append_assoc, List.cons_append]
    rw [fills_cellOps_append, ih]

theorem fills_panels (st : State) (sec : Section) (s : Nat)
    (pans : List (Nat × Panel)) (rest : List Cmd) :
    fills ((pans.flatMap fun (p, pan) =>
        pan.Labels.enum.flatMap fun (r, lab) => cellOps st sec pan lab s p r) ++ rest)
      = (pans.flatMap fun (p, pan) =>
          pan.Labels.enum.map fun (r, _) => cellRect st sec pan s p r) ++ fills rest := by
  induction pans with
  | nil => rfl
  | cons one more ih =>
    obtain ⟨p, pan⟩ := one
    simp only [List.flatMap_cons, List.append_assoc]
    rw [fills_rows, ih]

/-- The fills of a section are the rectangles of its cells, panel by panel and row
by row. -/
theorem fills_sectionOps (st : State) (s : Nat) (sec : Section) :
    fills (sectionOps st s sec)
      = sec.Panels.enum.flatMap fun (p, pan) =>
          pan.Labels.enum.map fun (r, _) => cellRect st sec pan s p r := by
  have h := fills_panels st sec s sec.Panels.enum []
  rw [List.append_nil] at h
  unfold sectionOps
  rw [h]
  exact List.append_nil _

theorem mem_fills_sectionOps (st : State) (s : Nat) (sec : Section) (cell : Rect) :
    cell ∈ fills (sectionOps st s sec) ↔
      ∃ p r pan, sec.Panels[p]? = some pan ∧ r < pan.Labels.length
        ∧ cell = cellRect st sec pan s p r := by
  rw [fills_sectionOps]
  constructor
  · intro h
    obtain ⟨⟨p, pan⟩, hpmem, h⟩ := List.mem_flatMap.1 h
    simp only [] at h
    obtain ⟨⟨r, lab⟩, hrmem, h⟩ := List.mem_map.1 h
    simp only [] at h
    have hp : sec.Panels[p]? = some pan := List.mk_mem_enum_iff_getElem?.1 hpmem
    have hr : pan.Labels[r]? = some lab := List.mk_mem_enum_iff_getElem?.1 hrmem
    exact ⟨p, r, pan, hp, lt_of_getElem_some hr, h.symm⟩
  · rintro ⟨p, r, pan, hp, hr, hcell⟩
    obtain ⟨lab, hlab⟩ := getElem_some_of_lt hr
    refine List.mem_flatMap.2 ⟨(p, pan), List.mk_mem_enum_iff_getElem?.2 hp, ?_⟩
    simp only []
    exact List.mem_map.2 ⟨(r, lab), List.mk_mem_enum_iff_getElem?.2 hlab, hcell.symm⟩

theorem fills_sections (st : State) (secs : List (Nat × Section)) (rest : List Cmd) :
    fills ((secs.flatMap fun (i, x) => sectionOps st i x) ++ rest)
      = (secs.flatMap fun (i, x) => fills (sectionOps st i x)) ++ fills rest := by
  induction secs with
  | nil => rfl
  | cons one more ih =>
    obtain ⟨i, x⟩ := one
    simp only [List.flatMap_cons, List.append_assoc]
    rw [fills_sectionOps]
    unfold sectionOps
    rw [fills_panels]
    unfold sectionOps at ih
    rw [ih]

/-- The fills in the output of `draw` are the fills of its sections, in order. -/
theorem fills_draw (st : State) :
    fills ([Cmd.SetHexColor st.bar.Color, Cmd.Clear] ++ barOps st)
      = st.bar.Sections.enum.flatMap fun (i, x) => fills (sectionOps st i x) := by
  have h := fills_sections st st.bar.Sections.enum []
  rw [List.append_nil] at h
  have hbar : barOps st = st.bar.Sections.enum.flatMap fun (i, x) => sectionOps st i x := rfl
  rw [hbar]
  show fills (st.bar.Sections.enum.flatMap fun (i, x) => sectionOps st i x) = _
  rw [h]
  exact List.append_nil _

/-- C11, as amended.  `draw` issues the cells section by section.  In a section
with `n` panels every fill has width `imgWidth / n` (floor) and lies within the
columns `[0, n * (imgWidth / n))`, so no column of `[n * (imgWidth / n), imgWidth)`
is covered; with two panels and an odd image width every fill has width
`imgWidth / 2` and the column `imgWidth - 1` lies in no fill.  When every panel of
the section has at least one label, the fills cover exactly the columns
`[0, n * (imgWidth / n))`. -/
theorem panel_fills_columns (fonts : String → Int → Bool) (bar : Bar) (img : Image)
    (dc : Context) (s : Nat) (sec : Section) (hs : bar.Sections[s]? = some sec)
    (hfonts : FontsLoad fonts bar) :
    (∃ ops,
      draw fonts (readImgInfo (loaded bar) img) dc = .ok { dc with ops := dc.ops ++ ops }
      ∧ fills ops = (bar.Sections.enum.flatMap fun (i, x) =>
          fills (sectionOps (readImgInfo (loaded bar) img) i x))
      ∧ ∀ cell ∈ fills (sectionOps (readImgInfo (loaded bar) img) s sec), cell ∈ fills ops)
    ∧ (∀ cell ∈ fills (sectionOps (readImgInfo (loaded bar) img) s sec),
        cell.width = Int.fdiv img.Dx sec.Panels.length
        ∧ (∀ a : Int, cell.x ≤ a → a < cell.x + cell.width →
            0 ≤ a ∧ a < sec.Panels.length * Int.fdiv img.Dx sec.Panels.length)
        ∧ (sec.Panels.length = 2 → img.Dx % 2 = 1 →
            cell.width = Int.fdiv img.Dx 2
            ∧ ¬ (cell.x ≤ (img.Dx : Int) - 1 ∧ (img.Dx : Int) - 1 < cell.x + cell.width)))
    ∧ ((∀ pan ∈ sec.Panels, 0 < pan.Labels.length) →
        ∀ a : Int, 0 ≤ a → a < sec.Panels.length * Int.fdiv img.Dx sec.Panels.length →
          ∃ cell ∈ fills (sectionOps (readImgInfo (loaded bar) img) s sec),
            cell.x ≤ a ∧ a < cell.x + cell.width)
    ∧ (sec.Panels.length : Int) * Int.fdiv img.Dx sec.Panels.length ≤ img.Dx := by
  have hdx : (0 : Int) ≤ img.Dx := Int.ofNat_nonneg _
  refine ⟨?_, ?_, ?_, ?_⟩
  · have hfills := fills_draw (readImgInfo (loaded bar) img)
    refine ⟨_, draw_ok fonts (readImgInfo (loaded bar) img) dc hfonts, hfills, ?_⟩
    intro cell hcell
    rw [hfills]
    exact List.mem_flatMap.2 ⟨(s, sec), List.mk_mem_enum_iff_getElem?.2 hs, hcell⟩
  · intro cell hcell
    obtain ⟨p, r, pan, hp, hr, hcellEq⟩ :=
      (mem_fills_sectionOps (readImgInfo (loaded bar) img) s sec cell).1 hcell
    have hplt : p < sec.Panels.length := lt_of_getElem_some hp
    have hn : 0 < sec.Panels.length := Nat.lt_of_le_of_lt (Nat.zero_le p) hplt
    obtain ⟨hfloor, hnonneg, hle, -⟩ := tdiv_count_bounds img.Dx sec.Panels.length hdx hn
    rw [hcellEq, cellRect_readImgInfo]
    have hrange : ∀ a : Int, Int.tdiv img.Dx sec.Panels.length * p ≤ a →
        a < Int.tdiv img.Dx sec.Panels.length * p + Int.tdiv img.Dx sec.Panels.length →
        0 ≤ a ∧ a < sec.Panels.length * Int.tdiv img.Dx sec.Panels.length := by
      intro a ha1 ha2
      have hstep := step_le_step (Int.tdiv img.Dx sec.Panels.length) p sec.Panels.length
        hnonneg hplt
      have hx0 : 0 ≤ Int.tdiv img.Dx sec.Panels.length * p :=
        mul_nonneg hnonneg (Int.ofNat_nonneg p)
      rw [mul_comm (sec.Panels.length : Int)]
      omega
    refine ⟨hfloor, ?_, ?_⟩
    · rw [← hfloor]
      exact hrange
    · intro htwo hodd
      have hcw : Int.fdiv img.Dx sec.Panels.length = Int.fdiv img.Dx 2 := by rw [htwo]; rfl
      refine ⟨by rw [← hcw]; exact hfloor, ?_⟩
      rintro ⟨ha1, ha2⟩
      have hin := hrange ((img.Dx : Int) - 1) ha1 ha2
      have hlen : (sec.Panels.length : Int) = 2 := by exact_mod_cast htwo
      rw [hfloor, hcw, hlen, Int.fdiv_eq_ediv _ (by decide)] at hin
      omega
  · intro hrows a h0 hlt
    obtain ⟨p, hp, hlo, hhi⟩ :=
      column_in_some_step (Int.fdiv img.Dx sec.Panels.length) sec.Panels.length a h0 hlt
    obtain ⟨pan, hpan⟩ := getElem_some_of_lt hp
    have hlabel : 0 < pan.Labels.length := hrows pan (List.mem_iff_getElem?.2 ⟨p, hpan⟩)
    have hn : 0 < sec.Panels.length := Nat.lt_of_le_of_lt (Nat.zero_le p) hp
    obtain ⟨hfloor, -, -, -⟩ := tdiv_count_bounds img.Dx sec.Panels.length hdx hn
    refine ⟨cellRect (readImgInfo (loaded bar) img) sec pan s p 0,
      (mem_fills_sectionOps _ s sec _).2 ⟨p, 0, pan, hpan, hlabel, rfl⟩, ?_⟩
    rw [cellRect_readImgInfo, hfloor]
    exact ⟨hlo, hhi⟩
  · rcases Nat.eq_zero_or_pos sec.Panels.length with hzero | hpos
    · rw [hzero]
      simp
    · obtain ⟨hfloor, -, hle, -⟩ := tdiv_count_bounds img.Dx sec.Panels.length hdx hpos
      rw [← hfloor]
      exact hle

/-- Witness for `panel_fills_columns`: under an image 641 wide the fills of the two
panels, each with labels, cover column 500 and leave column 640 uncovered. -/
theorem panel_fills_columns_witness :
    (∃ ops,
      draw everyFont (readImgInfo (loaded pairBar) oddImage) (NewContext 641 580)
          = .ok { NewContext 641 580 with ops := (NewContext 641 580).ops ++ ops }
      ∧ ∃ cell ∈ fills ops, cell.x ≤ (500 : Int) ∧ (500 : Int) < cell.x + cell.width)
    ∧ ∀ cell ∈ fills (sectionOps (readImgInfo (loaded pairBar) oddImage) 0 pairSection),
        cell.width = 320
        ∧ ¬ (cell.x ≤ (641 : Int) - 1 ∧ (641 : Int) - 1 < cell.x + cell.width) := by
  obtain ⟨⟨ops, hrun, -, hsub⟩, hfills, hcover, -⟩ :=
    panel_fills_columns everyFont pairBar oddImage (NewContext 641 580) 0 pairSection
      (by decide) (everyFont_loads pairBar)
  obtain ⟨cell, hcell, hcol⟩ := hcover (by decide) 500 (by decide) (by decide)
  refine ⟨⟨ops, hrun, cell, hsub cell hcell, hcol⟩, ?_⟩
  intro cell hcell
  obtain ⟨-, -, hodd⟩ := hfills cell hcell
  obtain ⟨hwidth, hout⟩ := hodd (by decide) (by decide)
  exact ⟨by rw [hwidth]; decide, hout⟩

/-- C11, counterexample to "for n panels the panel fills cover exactly the columns
`[0, n * (imgWidth / n))`": in a section of two panels of which the second has no
labels, under an image 640 wide, `draw` fills only the columns 0 to 319, and column
400 of `[0, 640)` lies in no fill. -/
theorem blank_panel_leaves_columns :
    fills (issued (draw everyFont (readImgInfo (loaded halfBlankBar) demoImage)
        (NewContext 640 580)))
      = [⟨0, 480, 320, 50⟩, ⟨0, 530, 320, 50⟩]
    ∧ (halfBlankSection.Panels.length : Int) * Int.fdiv 640 halfBlankSection.Panels.length = 640
    ∧ ∀ cell ∈ fills (issued (draw everyFont (readImgInfo (loaded halfBlankBar) demoImage)
        (NewContext 640 580))),
        ¬ (cell.x ≤ (400 : Int) ∧ (400 : Int) < cell.x + cell.width) := by
  decide

end BarOverlay
